import Mathlib

/-!
# CLIProxyAPIBusiness: user-group scoping of models, credentials and balances

A shallow embedding of the group-scoping code of the repository:

* `internal/models/user_group_ids.go`: the `UserGroupIDs` list type with `Clean`, `Values`,
  `Scan` and `Value`;
* `internal/http/models_middleware.go`: membership resolution, the group filters, the
  model-list middleware, path normalisation and the reading of a boolean setting;
* the selector and the balance deduction, whose implementation files are not part of the
  sources at hand and are modelled from the written specification.

A `UserGroupIDs` value is a Go slice of `*uint64`; it is modelled as a list of optional natural
numbers, `none` standing for a nil pointer. The code only compares ids and never computes with
them, so the 64-bit range plays no role except where a number is parsed or converted
(`ParseUint`, the JSON decoding into a `uint64`, `uint64OfInt`), where it is explicit. A nil
slice and an empty slice are both the empty list wherever the code only takes the length of a
slice or ranges over it.
-/

namespace CLIProxy

/-! ## `internal/models/user_group_ids.go` -/

/-- The source's `UserGroupIDs`, a slice of `*uint64`: `none` is a nil pointer. -/
abbrev UserGroupIDs := List (Option Nat)

/-- The loop of `Clean` (lines 106-118): `seen` is the set of ids met so far, `cleaned` the
output slice, to which each new non-zero id is appended. -/
def cleanLoop : List (Option Nat) → List Nat → UserGroupIDs → UserGroupIDs
  | [], _, cleaned => cleaned
  | none :: rest, seen, cleaned => cleanLoop rest seen cleaned
  | some v :: rest, seen, cleaned =>
    if v = 0 then cleanLoop rest seen cleaned
    else if v ∈ seen then cleanLoop rest seen cleaned
    else cleanLoop rest (v :: seen) (cleaned ++ [some v])

/-- The source's `UserGroupIDs.Clean` (lines 101-123). -/
def Clean (ids : UserGroupIDs) : UserGroupIDs :=
  if ids.length = 0 then []
  else
    let cleaned := cleanLoop ids [] []
    if cleaned.length = 0 then [] else cleaned

/-- The loop of `Values` (lines 140-151). -/
def valuesLoop : List (Option Nat) → List Nat → List Nat → List Nat
  | [], _, values => values
  | none :: rest, seen, values => valuesLoop rest seen values
  | some v :: rest, seen, values =>
    if v = 0 then valuesLoop rest seen values
    else if v ∈ seen then valuesLoop rest seen values
    else valuesLoop rest (v :: seen) (values ++ [v])

/-- The source's `UserGroupIDs.Values` (lines 135-153). -/
def Values (ids : UserGroupIDs) : List Nat :=
  if ids.length = 0 then [] else valuesLoop ids [] []

/-- The source's `UserGroupIDs.Primary` (lines 125-133): the first non-nil non-zero id. -/
def Primary : UserGroupIDs → Option Nat
  | [] => none
  | none :: rest => Primary rest
  | some v :: rest => if v ≠ 0 then some v else Primary rest

/-! ## `internal/http/models_middleware.go`: the group test -/

/-- The two loops of `hasAnyAllowedUserGroup` that fill the membership set (lines 220-231):
every non-zero id of the list is added. -/
def addMembership (membership : List Nat) : List Nat → List Nat
  | [] => membership
  | id :: rest =>
    if id = 0 then addMembership membership rest
    else addMembership (id :: membership) rest

/-- The last loop of `hasAnyAllowedUserGroup` (lines 232-240): true at the first non-nil
non-zero allowed id that is in the membership set. -/
def anyAllowedLoop (membership : List Nat) : UserGroupIDs → Bool
  | [] => false
  | none :: rest => anyAllowedLoop membership rest
  | some v :: rest =>
    if v = 0 then anyAllowedLoop membership rest
    else if v ∈ membership then true
    else anyAllowedLoop membership rest

/-- The source's `hasAnyAllowedUserGroup` (lines 214-241). -/
def hasAnyAllowedUserGroup (allowed userGroups billUserGroups : UserGroupIDs) : Bool :=
  let allowed := Clean allowed
  if allowed.length = 0 then true
  else
    let membership := addMembership [] (Values userGroups)
    let membership := addMembership membership (Values billUserGroups)
    anyAllowedLoop membership allowed

/-! ## Go standard-library helpers used by the source

Go strings are modelled as Lean strings (sequences of Unicode code points); byte sequences that
are not valid UTF-8 are outside the model. -/

/-- The white-space test of Go's `unicode.IsSpace`, used by `strings.TrimSpace`. -/
def isSpace (c : Char) : Bool :=
  c.toNat ∈ [0x09, 0x0A, 0x0B, 0x0C, 0x0D, 0x20, 0x85, 0xA0, 0x1680, 0x2028, 0x2029, 0x202F,
    0x205F, 0x3000] || (0x2000 ≤ c.toNat && c.toNat ≤ 0x200A)

/-- Go's `strings.TrimSpace` on the list of code points. -/
def trimSpaceChars (cs : List Char) : List Char :=
  ((cs.dropWhile isSpace).reverse.dropWhile isSpace).reverse

/-- Go's `strings.TrimSpace`: leading and trailing white space removed. -/
def TrimSpace (s : String) : String :=
  String.mk (trimSpaceChars s.data)

/-- Go's `strings.HasPrefix`. -/
def HasPrefix (s pre : String) : Bool :=
  pre.data.isPrefixOf s.data

/-- Go's `strings.TrimPrefix`: `s` without the leading `pre`, or `s` itself. -/
def TrimPrefix (s pre : String) : String :=
  if HasPrefix s pre then String.mk (s.data.drop pre.data.length) else s

/-- Go's `strings.HasSuffix`. -/
def HasSuffix (s suf : String) : Bool :=
  suf.data.isSuffixOf s.data

/-- Go's `strings.TrimSuffix`: `s` without one trailing `suf`, or `s` itself. -/
def TrimSuffix (s suf : String) : String :=
  if HasSuffix s suf then String.mk (s.data.take (s.data.length - suf.data.length)) else s

/-- The largest value of a Go `uint64`. -/
def maxUint64 : Nat := 2 ^ 64 - 1

/-- The digit loop of `strconv.ParseUint(s, 10, 64)`: every byte must be a decimal digit
(with an explicit base of 10 neither a sign, nor a base marker, nor an underscore is accepted),
and the accumulated value must stay within `uint64`. `none` is a returned error. -/
def parseUintLoop : List Char → Nat → Option Nat
  | [], n => some n
  | c :: rest, n =>
    if c.isDigit then
      let d := c.toNat - 48
      if n ≥ maxUint64 / 10 + 1 then none
      else
        let n1 := n * 10 + d
        if n1 > maxUint64 then none else parseUintLoop rest n1
    else none

/-- Go's `strconv.ParseUint(s, 10, 64)`; `none` is a returned error. -/
def ParseUint (s : String) : Option Nat :=
  if s.data.length = 0 then none else parseUintLoop s.data 0

/-- Go's `strconv.FormatUint(n, 10)`. -/
def FormatUint (n : Nat) : String :=
  Nat.repr n

/-! ## Data model of the HTTP layer -/

/-- The columns of `models.User` that `loadUserGroupMembership` selects. -/
structure User where
  UserGroupID : UserGroupIDs
  BillUserGroupID : UserGroupIDs
deriving DecidableEq

/-- The database handle, reduced to the one query the middleware issues on it:
`First(&user, id)`, where `none` is any returned error (record not found included). -/
structure DB where
  firstUser : Nat → Option User

/-- A value stored in the gin context under a key: either a `map[string]string` (as an
association list) or a value of another dynamic type. -/
inductive ContextValue where
  | stringMap (m : List (String × String))
  | other
deriving DecidableEq

/-- The `*url.URL` of a request. -/
structure URL where
  Path : String
deriving DecidableEq

/-- The `*http.Request` fields read by the middleware. -/
structure Request where
  Method : String
  URL : Option URL
  UserAgent : String
deriving DecidableEq

/-- The gin context: the request and the value stored under the key `accessMetadata`. -/
structure GinContext where
  Request : Option Request
  accessMetadata : Option ContextValue
deriving DecidableEq

/-- Go map lookup on a `map[string]string`: the zero value `""` when the key is absent. -/
def metaGet (m : List (String × String)) (key : String) : String :=
  (m.lookup key).getD ""

/-- The result triple of `loadUserGroupMembership`; `none` is a nil slice. -/
structure Membership where
  userGroups : Option UserGroupIDs
  billUserGroups : Option UserGroupIDs
  ok : Bool
deriving DecidableEq

/-- The source's `loadUserGroupMembership` (models_middleware.go, lines 185-212). -/
def loadUserGroupMembership (c : Option GinContext) (db : Option DB) : Membership :=
  match c, db with
  | none, _ => ⟨none, none, false⟩
  | _, none => ⟨none, none, false⟩
  | some c, some db =>
    match c.accessMetadata with
    | none => ⟨none, none, false⟩
    | some ContextValue.other => ⟨none, none, false⟩
    | some (ContextValue.stringMap m) =>
      let rawUserID := TrimSpace (metaGet m "user_id")
      if rawUserID = "" then ⟨none, none, false⟩
      else
        match ParseUint rawUserID with
        | none => ⟨none, none, false⟩
        | some parsed =>
          if parsed = 0 then ⟨none, none, false⟩
          else
            match db.firstUser parsed with
            | none => ⟨none, none, false⟩
            | some user => ⟨some (Clean user.UserGroupID), some (Clean user.BillUserGroupID), true⟩

/-- A nil or non-nil slice read as the list of its elements. -/
def sliceOf (s : Option UserGroupIDs) : UserGroupIDs :=
  s.getD []

/-- A dynamically typed Go value (`any`) as it occurs in model maps. -/
inductive AnyValue where
  | null
  | str (s : String)
  | int (n : Int)
  | strs (l : List String)
  | other (tag : Nat)
deriving DecidableEq

/-- A Go `map[string]any`, as an association list with distinct keys. -/
abbrev AnyMap := List (String × AnyValue)

/-- Go map indexing `m[key]`: the nil value when the key is absent. -/
def mapGet (m : AnyMap) (key : String) : AnyValue :=
  (m.lookup key).getD AnyValue.null

/-- The type assertion `m[key].(string)` with the zero value `""` on failure. -/
def mapGetString (m : AnyMap) (key : String) : String :=
  match mapGet m key with
  | AnyValue.str s => s
  | _ => ""

/-- Go map assignment `m[key] = v`. -/
def mapSet (m : AnyMap) (key : String) (v : AnyValue) : AnyMap :=
  if (m.lookup key).isSome then m.map (fun e => if e.1 = key then (key, v) else e)
  else m ++ [(key, v)]

/-- The fields of `sdkcliproxy.ModelInfo` that the middleware reads (`TypeName` is the field
`Type`, a reserved word here). -/
structure ModelInfo where
  ID : String
  Created : Int
  OwnedBy : String
  TypeName : String
  DisplayName : String
  Name : String
  Version : String
  Description : String
  ContextLength : Int
  MaxCompletionTokens : Int
  SupportedParameters : List String
  InputTokenLimit : Int
  OutputTokenLimit : Int
  SupportedGenerationMethods : List String
deriving DecidableEq

/-- The signature of `modelmapping.LookupUserGroupIDs(provider, model)`: the allowed group ids
and the found flag. The policy store is an external collaborator and stays a parameter. -/
abbrev PolicyLookup := String → String → UserGroupIDs × Bool

/-- The guard shared by the three list filters: the lookup found a policy, its cleaned set is
non-empty, and the caller has none of its groups. -/
def excludedByPolicy (lookup : PolicyLookup) (provider model : String)
    (userGroups billUserGroups : UserGroupIDs) : Bool :=
  let r := lookup provider model
  r.2 && decide ((Clean r.1).length > 0) && !hasAnyAllowedUserGroup r.1 userGroups billUserGroups

/-- The loop of `filterOpenAIRegistryModelsByUserGroups`. -/
def filterOpenAIRegistryLoop (lookup : PolicyLookup) (provider : String)
    (userGroups billUserGroups : UserGroupIDs) : List AnyMap → List AnyMap
  | [] => []
  | model :: rest =>
    let id := TrimSpace (mapGetString model "id")
    if id ≠ "" ∧ excludedByPolicy lookup provider id userGroups billUserGroups = true then
      filterOpenAIRegistryLoop lookup provider userGroups billUserGroups rest
    else model :: filterOpenAIRegistryLoop lookup provider userGroups billUserGroups rest

/-- The source's `filterOpenAIRegistryModelsByUserGroups` (lines 243-262). -/
def filterOpenAIRegistryModelsByUserGroups (lookup : PolicyLookup) (raw : List AnyMap)
    (provider : String) (userGroups billUserGroups : UserGroupIDs) : List AnyMap :=
  let provider := TrimSpace provider
  if provider = "" ∨ raw.length = 0 then raw
  else filterOpenAIRegistryLoop lookup provider userGroups billUserGroups raw

/-- The loop of `filterGeminiRegistryModelsByUserGroups`. -/
def filterGeminiRegistryLoop (lookup : PolicyLookup)
    (userGroups billUserGroups : UserGroupIDs) : List AnyMap → List AnyMap
  | [] => []
  | model :: rest =>
    let name := TrimSpace (mapGetString model "name")
    let lookupName := TrimPrefix name "models/"
    let lookupName := if lookupName = "" then name else lookupName
    if lookupName ≠ "" ∧
        excludedByPolicy lookup "gemini" lookupName userGroups billUserGroups = true then
      filterGeminiRegistryLoop lookup userGroups billUserGroups rest
    else model :: filterGeminiRegistryLoop lookup userGroups billUserGroups rest

/-- The source's `filterGeminiRegistryModelsByUserGroups` (lines 264-286). -/
def filterGeminiRegistryModelsByUserGroups (lookup : PolicyLookup) (raw : List AnyMap)
    (userGroups billUserGroups : UserGroupIDs) : List AnyMap :=
  if raw.length = 0 then raw
  else filterGeminiRegistryLoop lookup userGroups billUserGroups raw

/-- The loop of `filterModelInfosByUserGroups`; `toLower` is Go's `strings.ToLower`, `none` is
a nil `*ModelInfo`. -/
def filterModelInfosLoop (toLower : String → String) (lookup : PolicyLookup)
    (userGroups billUserGroups : UserGroupIDs) : List (Option ModelInfo) → List (Option ModelInfo)
  | [] => []
  | none :: rest => filterModelInfosLoop toLower lookup userGroups billUserGroups rest
  | some info :: rest =>
    let modelID := TrimSpace info.ID
    if modelID = "" then filterModelInfosLoop toLower lookup userGroups billUserGroups rest
    else
      let provider := toLower (TrimSpace info.OwnedBy)
      if provider ≠ "" ∧
          excludedByPolicy lookup provider modelID userGroups billUserGroups = true then
        filterModelInfosLoop toLower lookup userGroups billUserGroups rest
      else some info :: filterModelInfosLoop toLower lookup userGroups billUserGroups rest

/-- The source's `filterModelInfosByUserGroups` (lines 288-312). -/
def filterModelInfosByUserGroups (toLower : String → String) (lookup : PolicyLookup)
    (raw : List (Option ModelInfo)) (userGroups billUserGroups : UserGroupIDs) :
    List (Option ModelInfo) :=
  if raw.length = 0 then raw
  else filterModelInfosLoop toLower lookup userGroups billUserGroups raw

/-- The source's `normalizeRequestPath` (lines 314-321); `len(path)` counts bytes. -/
def normalizeRequestPath (path : String) : String :=
  let path := TrimSpace path
  if HasSuffix path "/" = true ∧ path.utf8ByteSize > 1 then TrimSuffix path "/" else path

/-- An optional map entry: present when the guard of the source's `if` holds. -/
def entryIf (cond : Bool) (key : String) (v : AnyValue) : AnyMap :=
  if cond then [(key, v)] else []

/-- The source's `convertModelToMap` (lines 368-467); `none` is the nil map returned for a nil
model. -/
def convertModelToMap (model : Option ModelInfo) (handlerType : String) : Option AnyMap :=
  match model with
  | none => none
  | some model =>
    if handlerType = "openai" then
      some ([("id", AnyValue.str model.ID), ("object", AnyValue.str "model"),
          ("owned_by", AnyValue.str model.OwnedBy)]
        ++ entryIf (decide (model.Created > 0)) "created" (AnyValue.int model.Created)
        ++ entryIf (decide (model.TypeName ≠ "")) "type" (AnyValue.str model.TypeName)
        ++ entryIf (decide (model.DisplayName ≠ "")) "display_name" (AnyValue.str model.DisplayName)
        ++ entryIf (decide (model.Version ≠ "")) "version" (AnyValue.str model.Version)
        ++ entryIf (decide (model.Description ≠ "")) "description" (AnyValue.str model.Description)
        ++ entryIf (decide (model.ContextLength > 0)) "context_length"
            (AnyValue.int model.ContextLength)
        ++ entryIf (decide (model.MaxCompletionTokens > 0)) "max_completion_tokens"
            (AnyValue.int model.MaxCompletionTokens)
        ++ entryIf (decide (model.SupportedParameters.length > 0)) "supported_parameters"
            (AnyValue.strs model.SupportedParameters))
    else if handlerType = "claude" then
      some ([("id", AnyValue.str model.ID), ("object", AnyValue.str "model"),
          ("owned_by", AnyValue.str model.OwnedBy)]
        ++ entryIf (decide (model.Created > 0)) "created" (AnyValue.int model.Created)
        ++ entryIf (decide (model.TypeName ≠ "")) "type" (AnyValue.str model.TypeName)
        ++ entryIf (decide (model.DisplayName ≠ "")) "display_name"
            (AnyValue.str model.DisplayName))
    else if handlerType = "gemini" then
      some ([("name", AnyValue.str (if model.Name ≠ "" then model.Name else model.ID))]
        ++ entryIf (decide (model.Version ≠ "")) "version" (AnyValue.str model.Version)
        ++ entryIf (decide (model.DisplayName ≠ "")) "displayName" (AnyValue.str model.DisplayName)
        ++ entryIf (decide (model.Description ≠ "")) "description" (AnyValue.str model.Description)
        ++ entryIf (decide (model.InputTokenLimit > 0)) "inputTokenLimit"
            (AnyValue.int model.InputTokenLimit)
        ++ entryIf (decide (model.OutputTokenLimit > 0)) "outputTokenLimit"
            (AnyValue.int model.OutputTokenLimit)
        ++ entryIf (decide (model.SupportedGenerationMethods.length > 0))
            "supportedGenerationMethods" (AnyValue.strs model.SupportedGenerationMethods))
    else
      some ([("id", AnyValue.str model.ID), ("object", AnyValue.str "model")]
        ++ entryIf (decide (model.OwnedBy ≠ "")) "owned_by" (AnyValue.str model.OwnedBy)
        ++ entryIf (decide (model.TypeName ≠ "")) "type" (AnyValue.str model.TypeName)
        ++ entryIf (decide (model.Created ≠ 0)) "created" (AnyValue.int model.Created))

/-- The JSON body handed to `AbortWithStatusJSON`, one constructor per shape of `gin.H`
the middleware builds. -/
inductive Body where
  /-- The body with the single key `data`. -/
  | data (data : List AnyMap)
  /-- The body with `object` set to the text `list` and the key `data`. -/
  | list (data : List AnyMap)
  /-- The body with the single key `models`. -/
  | models (models : List AnyMap)
  /-- The body with the single key `error`. -/
  | error (msg : String)
deriving DecidableEq

/-- What the handler does with a request: pass it on (`c.Next()`), or abort with a status and a
JSON body. `noop` is the return taken for a nil context. -/
inductive Outcome where
  | noop
  | next
  | abortWithStatusJSON (status : Nat) (body : Body)
deriving DecidableEq

/-- The loop that turns model infos into response maps through `convertModelToMap`, skipping
nil maps (lines 63-69 and 151-157). -/
def convertLoop (handlerType : String) : List (Option ModelInfo) → List AnyMap
  | [] => []
  | info :: rest =>
    match convertModelToMap info handlerType with
    | none => convertLoop handlerType rest
    | some m => m :: convertLoop handlerType rest

/-- The loop over registry models on the OpenAI branch (lines 76-98): group filtering when the
membership is known, then the projection to the keys id, object, created and owned_by. -/
def openAIRegistryLoop (lookup : PolicyLookup) (okUser : Bool)
    (userGroups billUserGroups : UserGroupIDs) : List AnyMap → List AnyMap
  | [] => []
  | model :: rest =>
    let id := TrimSpace (mapGetString model "id")
    if okUser = true ∧ id ≠ "" ∧
        excludedByPolicy lookup "openai" id userGroups billUserGroups = true then
      openAIRegistryLoop lookup okUser userGroups billUserGroups rest
    else
      ([("id", mapGet model "id"), ("object", mapGet model "object")]
        ++ entryIf (model.lookup "created").isSome "created" (mapGet model "created")
        ++ entryIf (model.lookup "owned_by").isSome "owned_by" (mapGet model "owned_by"))
      :: openAIRegistryLoop lookup okUser userGroups billUserGroups rest

/-- The loop over mapped model infos on the OpenAI branch (lines 113-127). -/
def openAIMappedLoop : List (Option ModelInfo) → List AnyMap
  | [] => []
  | none :: rest => openAIMappedLoop rest
  | some info :: rest =>
    if TrimSpace info.ID = "" then openAIMappedLoop rest
    else
      ([("id", AnyValue.str info.ID), ("object", AnyValue.str "model"),
          ("owned_by", AnyValue.str info.OwnedBy)]
        ++ entryIf (decide (info.Created > 0)) "created" (AnyValue.int info.Created))
      :: openAIMappedLoop rest

/-- The body of the normalisation loop on the Gemini branch (lines 163-173), for one model. -/
def normalizeGeminiModel (model : AnyMap) : AnyMap :=
  let normalizedModel := model
  let normalizedModel :=
    match mapGet normalizedModel "name" with
    | AnyValue.str name =>
      if name ≠ "" ∧ HasPrefix name "models/" = false then
        mapSet normalizedModel "name" (AnyValue.str ("models/" ++ name))
      else normalizedModel
    | _ => normalizedModel
  if (normalizedModel.lookup "supportedGenerationMethods").isSome then normalizedModel
  else mapSet normalizedModel "supportedGenerationMethods" (AnyValue.strs ["generateContent"])

/-- The source's `CLIProxyModelsMiddleware` handler (lines 23-183). The external collaborators
are parameters: `onlyMapped` is the value of `dbConfigBool("ONLY_MAPPED_MODELS")`,
`registry` is `GlobalModelRegistry().GetAvailableModels`, `mapped` is the result of
`listMappedModelInfos` (`none` for a returned error), `lookup` is the policy store and
`toLower` is `strings.ToLower`. -/
def CLIProxyModelsMiddleware (toLower : String → String) (lookup : PolicyLookup)
    (onlyMapped : Bool) (registry : String → List AnyMap)
    (mapped : Option (List (Option ModelInfo))) (db : Option DB) (c : Option GinContext) :
    Outcome :=
  match c with
  | none => Outcome.noop
  | some ctx =>
    match ctx.Request with
    | none => Outcome.next
    | some req =>
      match req.URL with
      | none => Outcome.next
      | some url =>
        if req.Method ≠ "GET" then Outcome.next
        else
          let path := normalizeRequestPath url.Path
          if path = "/v1/models" then
            let m := loadUserGroupMembership c db
            let userGroups := sliceOf m.userGroups
            let billUserGroups := sliceOf m.billUserGroups
            let okUser := m.ok
            if HasPrefix req.UserAgent "claude-cli" then
              if !onlyMapped then
                let data := registry "claude"
                let data :=
                  if okUser then
                    filterOpenAIRegistryModelsByUserGroups lookup data "claude" userGroups
                      billUserGroups
                  else data
                Outcome.abortWithStatusJSON 200 (Body.data data)
              else
                match mapped with
                | none => Outcome.abortWithStatusJSON 500 (Body.error "list models failed")
                | some modelInfos =>
                  let modelInfos :=
                    if okUser then
                      filterModelInfosByUserGroups toLower lookup modelInfos userGroups
                        billUserGroups
                    else modelInfos
                  Outcome.abortWithStatusJSON 200 (Body.data (convertLoop "claude" modelInfos))
            else if !onlyMapped then
              let allModels := registry "openai"
              Outcome.abortWithStatusJSON 200
                (Body.list (openAIRegistryLoop lookup okUser userGroups billUserGroups allModels))
            else
              match mapped with
              | none => Outcome.abortWithStatusJSON 500 (Body.error "list models failed")
              | some modelInfos =>
                let modelInfos :=
                  if okUser then
                    filterModelInfosByUserGroups toLower lookup modelInfos userGroups
                      billUserGroups
                  else modelInfos
                Outcome.abortWithStatusJSON 200 (Body.list (openAIMappedLoop modelInfos))
          else if path = "/v1beta/models" then
            let m := loadUserGroupMembership c db
            let userGroups := sliceOf m.userGroups
            let billUserGroups := sliceOf m.billUserGroups
            let okUser := m.ok
            if !onlyMapped then
              let rawModels := registry "gemini"
              let rawModels :=
                if okUser then
                  filterGeminiRegistryModelsByUserGroups lookup rawModels userGroups billUserGroups
                else rawModels
              Outcome.abortWithStatusJSON 200 (Body.models (rawModels.map normalizeGeminiModel))
            else
              match mapped with
              | none => Outcome.abortWithStatusJSON 500 (Body.error "list models failed")
              | some modelInfos =>
                let modelInfos :=
                  if okUser then
                    filterModelInfosByUserGroups toLower lookup modelInfos userGroups
                      billUserGroups
                  else modelInfos
                let rawModels := convertLoop "gemini" modelInfos
                Outcome.abortWithStatusJSON 200 (Body.models (rawModels.map normalizeGeminiModel))
          else Outcome.next

/-- The number a list of decimal digits denotes, most significant digit first; the
specification-side reading of a base-10 numeral, against which `ParseUint` is checked. -/
def decimalValue (cs : List Char) : Nat :=
  cs.foldl (fun acc c => acc * 10 + (c.toNat - 48)) 0

/-! ## The selector

`Selector.Pick` lives in a file of the repository that is not among the sources at hand; only
its test (`selector_user_group_test.go`) and the record type of a credential group
(`auth_group.go`) are. The definitions below follow the written specification of the selector
(sections 4.1 to 4.5 and 6) and reuse the source's own membership resolution and group test. -/

/-- The source's `models.AuthGroup` (auth_group.go): the credential group, with its rate limit
per second and its allowed user group ids. -/
structure AuthGroup where
  ID : Nat
  Name : String
  IsDefault : Bool
  RateLimit : Int
  UserGroupID : UserGroupIDs
deriving DecidableEq

/-- Modelled from the spec: the lifecycle status of a credential (section 3), whose declaration
is not among the sources; only an active credential is usable. -/
inductive Status where
  | active
  | inactive
  | unusable
deriving DecidableEq

/-- Modelled from the spec: a candidate credential (section 6), whose declaration is not among
the sources, with the two fields the selector is given: id and status. -/
structure Auth where
  ID : String
  Status : Status
deriving DecidableEq

/-- Modelled from the spec: the kinds of failure of `Pick` (section 7), whose declaration is
not among the sources. -/
inductive PickError where
  | accessDenied
  | noEligibleCredential
deriving DecidableEq

/-- Modelled from the spec: the state of the rate limiter of section 4.4, whose implementation is
not among the sources. It records, per credential-group id, the calls admitted in the current
window (an association list; an absent id has count zero). -/
structure RateLimiter where
  admitted : List (Nat × Nat)
deriving DecidableEq

/-- Modelled from the spec: the number of calls the limiter has admitted for a credential group
in the current window. -/
def RateLimiter.count (rl : RateLimiter) (groupID : Nat) : Nat :=
  (rl.admitted.lookup groupID).getD 0

/-- Modelled from the spec: `Admit(credentialGroupID, limit)` of section 4.4, whose
implementation is not among the sources. A limit of zero or less always admits; otherwise the
call is admitted, and counted, while fewer than `limit` calls were admitted in the window, and
denied once the limit is reached. -/
def Admit (rl : RateLimiter) (groupID : Nat) (limit : Int) : Bool × RateLimiter :=
  if limit ≤ 0 then (true, rl)
  else if (rl.count groupID : Int) < limit then
    (true, ⟨(groupID, rl.count groupID + 1) :: rl.admitted⟩)
  else (false, rl)

/-- Modelled from the spec: the collaborators of the selector (section 6), whose declaration is
not among the sources: the membership store, the model policy store and the credential policy
store, which maps a credential id to its owning credential group (`none` when no group can be
resolved). -/
structure Selector where
  db : Option DB
  lookup : PolicyLookup
  authGroupOf : String → Option AuthGroup

/-- Modelled from the spec: `RestrictionFor(credential)` of section 4.3, whose implementation is
not among the sources. The restriction is that of the owning credential group; a credential with
no resolvable group is unrestricted. -/
def RestrictionFor (s : Selector) (cred : Auth) : UserGroupIDs :=
  match s.authGroupOf cred.ID with
  | none => []
  | some g => g.UserGroupID

/-- Modelled from the spec: the first id of `ids`, in order, that the restriction holds
(section 4.5, step 4). -/
def firstMatching (ids : List Nat) (restriction : UserGroupIDs) : Option Nat :=
  ids.find? (fun g => decide (some g ∈ Clean restriction))

/-- Modelled from the spec: the billing scope of section 4.5, step 4, whose implementation is not
among the sources. When the restriction of the selected credential intersects the caller's
groups, the scope is the first matching billing group id, and the first matching access group id
when no billing group matches; otherwise there is no group id. -/
def billingScope (restriction userGroups billUserGroups : UserGroupIDs) : Option Nat :=
  match firstMatching (Values billUserGroups) restriction with
  | some g => some g
  | none => firstMatching (Values userGroups) restriction

/-- Go map assignment on a `map[string]string`. -/
def metaSet (m : List (String × String)) (key v : String) : List (String × String) :=
  (key, v) :: m.filter (fun e => e.1 ≠ key)

/-- Modelled from the spec: the write of the resolved billing group id into the request-scoped
metadata (section 4.5, step 4, and section 6): the id as a base-10 string under the key
`billing_user_group_id`, and no write when there is no group id. -/
def writeBillingScope (c : Option GinContext) (scope : Option Nat) : Option GinContext :=
  match scope, c with
  | some g, some ctx =>
    match ctx.accessMetadata with
    | some (ContextValue.stringMap m) =>
      some ⟨ctx.Request,
        some (ContextValue.stringMap (metaSet m "billing_user_group_id" (FormatUint g)))⟩
    | _ => c
  | _, _ => c

/-- Modelled from the spec: the candidate loop of section 4.5, step 3, whose implementation is
not among the sources. In input order a candidate is skipped when its status is not usable, when
the caller's membership is known and the candidate's restriction is non-empty and disjoint from
the caller's access and billing groups, or when the rate limiter denies its credential group;
the first surviving candidate is selected. -/
def pickLoop (s : Selector) (okUser : Bool) (userGroups billUserGroups : UserGroupIDs) :
    List Auth → RateLimiter → Option (Auth × RateLimiter)
  | [], _ => none
  | cand :: rest, rl =>
    if cand.Status ≠ Status.active then pickLoop s okUser userGroups billUserGroups rest rl
    else if okUser = true ∧
        hasAnyAllowedUserGroup (RestrictionFor s cand) userGroups billUserGroups = false then
      pickLoop s okUser userGroups billUserGroups rest rl
    else
      match s.authGroupOf cand.ID with
      | none => some (cand, rl)
      | some g =>
        if (Admit rl g.ID g.RateLimit).1 = true then some (cand, (Admit rl g.ID g.RateLimit).2)
        else pickLoop s okUser userGroups billUserGroups rest (Admit rl g.ID g.RateLimit).2

/-- Modelled from the spec: the effect of `Pick` (section 6): the credential or the error, the
request context with its metadata after the call, and the state of the rate limiter after the
call. -/
structure PickResult where
  result : Except PickError Auth
  ctx : Option GinContext
  limiter : RateLimiter

/-- Modelled from the spec: `Selector.Pick` of section 4.5, whose implementation is not among the
sources. Step 1 resolves the caller's membership (a failed resolution skips the group checks of
steps 2 and 3); step 2 denies access when the model policy excludes the caller, before any
candidate is looked at; step 3 selects the first eligible candidate; step 4 writes the billing
scope; a failed call leaves the metadata as it was. The options bag is opaque to the selector
and left out. -/
def Pick (s : Selector) (rl : RateLimiter) (c : Option GinContext) (provider model : String)
    (candidates : List Auth) : PickResult :=
  let m := loadUserGroupMembership c s.db
  let userGroups := sliceOf m.userGroups
  let billUserGroups := sliceOf m.billUserGroups
  if m.ok = true ∧ (s.lookup provider model).2 = true ∧
      hasAnyAllowedUserGroup (s.lookup provider model).1 userGroups billUserGroups = false then
    ⟨Except.error PickError.accessDenied, c, rl⟩
  else
    match pickLoop s m.ok userGroups billUserGroups candidates rl with
    | none => ⟨Except.error PickError.noEligibleCredential, c, rl⟩
    | some (cred, rl2) =>
      ⟨Except.ok cred,
        writeBillingScope c (billingScope (RestrictionFor s cred) userGroups billUserGroups), rl2⟩

/-- The caller's membership in the user group `v`, as the selector reads the outcome `m` of the
membership resolution (sections 4.1 and 4.5, step 1): the group is among the access groups or
among the billing groups the resolver returned; a caller whose resolution failed is treated as
unrestricted, which is to say as a member of every group. -/
def CallerHasGroup (m : Membership) (v : Nat) : Prop :=
  m.ok = false ∨ some v ∈ sliceOf m.userGroups ∨ some v ∈ sliceOf m.billUserGroups

/-- A restriction (of a model policy or of a credential group) admits the caller: it holds no
non-zero id, which means unrestricted, or it shares a non-zero id with the caller's groups. -/
def RestrictionAdmits (m : Membership) (restriction : UserGroupIDs) : Prop :=
  (¬ ∃ v : Nat, v ≠ 0 ∧ some v ∈ restriction) ∨
    ∃ v : Nat, v ≠ 0 ∧ some v ∈ restriction ∧ CallerHasGroup m v

/-- The source's test helper `buildTestGinContext` (selector_user_group_test.go, lines
189-197): a POST request to `path`, with `accessMetadata` holding the user id unless it is
zero. -/
def buildTestGinContext (path : String) (userID : Nat) : Option GinContext :=
  some ⟨some ⟨"POST", some ⟨path⟩, ""⟩,
    if userID ≠ 0 then some (ContextValue.stringMap [("user_id", FormatUint userID)]) else none⟩

/-- The store of the two selector tests: user 1 is a member of user group 1. -/
def testDB : DB :=
  ⟨fun n => if n = 1 then some ⟨[some 1], []⟩ else none⟩

/-- The selector of `TestSelectorEnforcesModelMappingUserGroupRestriction`: the model
openai/gpt-4 is restricted to user group 2, and the credential auth-1 belongs to the
unrestricted credential group 1. -/
def testSelectorModelRestricted : Selector :=
  ⟨some testDB,
    fun provider model =>
      if provider = "openai" ∧ model = "gpt-4" then ([some 2], true) else ([], false),
    fun id => if id = "auth-1" then some ⟨1, "ag", false, 0, []⟩ else none⟩

/-- The selector of `TestSelectorFiltersAuthsByAuthGroupUserGroupRestriction`: the model is
unrestricted, auth-allowed belongs to credential group 1 (restricted to user group 1) and
auth-denied to credential group 2 (restricted to user group 2). -/
def testSelectorAuthGroups : Selector :=
  ⟨some testDB,
    fun provider model =>
      if provider = "openai" ∧ model = "gpt-4" then ([], true) else ([], false),
    fun id =>
      if id = "auth-allowed" then some ⟨1, "ag-allowed", false, 0, [some 1]⟩
      else if id = "auth-denied" then some ⟨2, "ag-denied", false, 0, [some 2]⟩
      else none⟩

/-! ## The balance deduction

`deductBillBalance` and `deductPrepaidBalance` live in a file of the repository that is not
among the sources at hand; only their test (`group_deduction_test.go`) is. The definitions below
follow section 4.6 of the written specification. Decimal amounts are modelled exactly, as
integers counting the smallest unit of account; the database is the list of its rows, and a
deduction returns the rows after the update. The transaction handle, the request context and the
micro-unit copy of the cost, which the specification does not relate to the counters, are left
out. -/

/-- Modelled from the spec: the subscription quota record (FundingRecord, `models.Bill` in the
test), whose declaration is not among the sources: scoped to a caller identity, an optional user
group id and a validity period, with a remaining-quota counter. -/
structure Bill where
  ID : Nat
  UserID : Nat
  UserGroupID : Option Nat
  PeriodStart : Int
  PeriodEnd : Int
  LeftQuota : Int
deriving DecidableEq

/-- Modelled from the spec: the prepaid balance record (`models.PrepaidCard` in the test), whose
declaration is not among the sources: scoped to the identity that redeemed it and an optional
user group id, with a remaining-balance counter. -/
structure PrepaidCard where
  ID : Nat
  RedeemedUserID : Option Nat
  UserGroupID : Option Nat
  Balance : Int
deriving DecidableEq

/-- Modelled from the spec: the record selection of section 4.6, whose implementation is not
among the sources. A record matches when it belongs to the identity, its group scope equals the
requested group id exactly (an absent group id matches only unscoped records), and its validity
period contains the current time. -/
def billMatches (userID : Nat) (groupID : Option Nat) (now : Int) (b : Bill) : Bool :=
  decide (b.UserID = userID) && decide (b.UserGroupID = groupID) &&
    decide (b.PeriodStart ≤ now) && decide (now ≤ b.PeriodEnd)

/-- Modelled from the spec: the deterministic tie-break of section 4.6 among eligible records,
earliest period end first (the earlier row on equal period ends). -/
def earliestPeriodEnd (candidates : List (Nat × Bill)) : Option (Nat × Bill) :=
  candidates.foldl
    (fun best x =>
      match best with
      | none => some x
      | some b => if x.2.PeriodEnd < b.2.PeriodEnd then some x else some b)
    none

/-- Modelled from the spec: `deductBillBalance` (section 4.6), whose implementation is not among
the sources. Among the matching records whose remaining quota covers the amount (the guard
"remaining >= amount" of the conditional update), the one chosen by the tie-break is decremented
by the amount; when no record covers the amount nothing is changed and `deducted` is false. -/
def deductBillBalance (bills : List Bill) (userID : Nat) (groupID : Option Nat) (amount : Int)
    (now : Int) : Bool × List Bill :=
  match earliestPeriodEnd (bills.enum.filter
      (fun x => billMatches userID groupID now x.2 && decide (amount ≤ x.2.LeftQuota))) with
  | none => (false, bills)
  | some (i, b) => (true, bills.set i { b with LeftQuota := b.LeftQuota - amount })

/-- Modelled from the spec: the prepaid record selection of section 4.6: redeemed by the
identity, with the same exact match of the group scope. -/
def cardMatches (userID : Nat) (groupID : Option Nat) (card : PrepaidCard) : Bool :=
  decide (card.RedeemedUserID = some userID) && decide (card.UserGroupID = groupID)

/-- The failure of a deduction that no funding source covers. -/
inductive DeductError where
  | insufficientFunds
deriving DecidableEq

/-- Modelled from the spec: `deductPrepaidBalance` (section 4.6), whose implementation is not
among the sources. The first matching card whose balance covers the amount is decremented by the
amount; when none covers it the call fails and nothing is changed. The first component is the
returned error, `none` for success. -/
def deductPrepaidBalance (cards : List PrepaidCard) (userID : Nat) (groupID : Option Nat)
    (amount : Int) : Option DeductError × List PrepaidCard :=
  match (cards.enum.filter
      (fun x => cardMatches userID groupID x.2 && decide (amount ≤ x.2.Balance))).head? with
  | none => (some DeductError.insufficientFunds, cards)
  | some (i, card) => (none, cards.set i { card with Balance := card.Balance - amount })

/-- The two bills of `TestDeductBillBalanceRespectsUserGroupID`: same user, same period, quota
10 each, scoped to user group 1 and to user group 2; the current time is 0. -/
def testBills : List Bill :=
  [⟨1, 1, some 1, -3600, 3600, 10⟩, ⟨2, 1, some 2, -3600, 3600, 10⟩]

/-- The two cards of `TestDeductPrepaidBalanceRespectsUserGroupID`: redeemed by the same user,
balance 10 each, scoped to user group 1 and to user group 2. -/
def testCards : List PrepaidCard :=
  [⟨1, some 1, some 1, 10⟩, ⟨2, some 1, some 2, 10⟩]

/-- A registry that lists the single OpenAI model gpt-4. -/
def exampleRegistry : String → List AnyMap :=
  fun handlerType =>
    if handlerType = "openai" then
      [[("id", AnyValue.str "gpt-4"), ("object", AnyValue.str "model")]]
    else []

/-- A GET request for the model list, with a trailing slash and no `accessMetadata`. -/
def anonymousModelsRequest : GinContext :=
  ⟨some ⟨"GET", some ⟨"/v1/models/"⟩, "curl/8.0"⟩, none⟩

/-! ## JSON payloads, as Go's `encoding/json` reads them

The JSON codec is Go's standard library and not part of the repository. A byte slice is
modelled by what it is to the codec and to `bytes.TrimSpace`, a JSON text by the document it
denotes. The decoding rules below are those documented for `json.Unmarshal`: a JSON null
decoded into a bool, a string or a number has no effect and is no error; object keys are matched
to struct fields ignoring case, and a later member overwrites an earlier one. -/

/-- A JSON number literal: an optional minus sign, the integer part, the digits after the
point when there is a fraction, and the exponent when there is one. -/
structure JNumber where
  negative : Bool
  intPart : Nat
  frac : Option (List (Fin 10))
  exp : Option Int
deriving DecidableEq

/-- The literal of a natural number, as `json.Marshal` writes a `uint64`. -/
def natNumber (n : Nat) : JNumber :=
  ⟨false, n, none, none⟩

/-- The decoding of a number literal into a `uint64`: `strconv.ParseUint` on the literal, so the
literal must consist of digits only and fit in 64 bits. `none` is a returned error. -/
def decodeUint64 (x : JNumber) : Option Nat :=
  if x.negative = false ∧ x.frac = none ∧ x.exp = none ∧ x.intPart ≤ maxUint64 then some x.intPart
  else none

/-- The number the digits of a fraction denote, read as a natural number. -/
def digitsValue (ds : List (Fin 10)) : Nat :=
  ds.foldl (fun acc d => acc * 10 + d.val) 0

/-- The decimal mantissa of a literal: the integer part followed by the fraction digits. -/
def JNumber.mantissa (x : JNumber) : Nat :=
  match x.frac with
  | none => x.intPart
  | some ds => x.intPart * 10 ^ ds.length + digitsValue ds

/-- The decimal exponent that goes with `mantissa`: the magnitude of the literal is
`mantissa * 10 ^ exponent10`. -/
def JNumber.exponent10 (x : JNumber) : Int :=
  x.exp.getD 0 - (match x.frac with
    | none => 0
    | some ds => (ds.length : Int))

/-- The decoding of a number literal into a `float64` (`strconv.ParseFloat`, rounding to
nearest, ties to even), reduced to what the source looks at. `none` is the range error for a
magnitude of at least `2^1024 - 2^970`, which rounds to infinity; otherwise the result tells
whether the decoded value differs from zero, which it does when the magnitude exceeds
`2^(-1075)`, half the smallest positive `float64`. -/
def decodeFloat64NonZero (x : JNumber) : Option Bool :=
  if 0 ≤ x.exponent10 then
    if x.mantissa * 10 ^ x.exponent10.toNat ≥ 2 ^ 1024 - 2 ^ 970 then none
    else some (decide (x.mantissa * 10 ^ x.exponent10.toNat ≠ 0))
  else
    if x.mantissa ≥ (2 ^ 1024 - 2 ^ 970) * 10 ^ (-x.exponent10).toNat then none
    else some (decide (x.mantissa * 2 ^ 1075 > 10 ^ (-x.exponent10).toNat))

/-- A JSON document. The members of an object are kept in their order in the text, duplicate
names included. -/
inductive JSON where
  | null
  | bool (b : Bool)
  | number (x : JNumber)
  | string (s : String)
  | array (elems : List JSON)
  | object (members : List (String × JSON))

/-- A Go byte slice, by what it holds: nothing; white space only; a JSON text denoting `j`
(JSON white space around it allowed); a JSON text denoting `j` with other Unicode white space
around it, which the JSON grammar rejects and `bytes.TrimSpace` removes; or anything else. -/
inductive RawBytes where
  | empty
  | blank
  | doc (j : JSON)
  | padded (j : JSON)
  | invalid

/-- Go's `len(data) == 0` on a byte slice. -/
def RawBytes.isEmpty : RawBytes → Bool
  | RawBytes.empty => true
  | _ => false

/-- Go's `bytes.TrimSpace`. -/
def bytesTrimSpace : RawBytes → RawBytes
  | RawBytes.empty => RawBytes.empty
  | RawBytes.blank => RawBytes.empty
  | RawBytes.doc j => RawBytes.doc j
  | RawBytes.padded j => RawBytes.doc j
  | RawBytes.invalid => RawBytes.invalid

/-- The constant `maxNestingDepth` of the scanner of `encoding/json`: the number of arrays and
objects that may be open at the same time in a text the scanner accepts. -/
def maxNestingDepth : Nat := 10000

mutual
/-- The nesting depth of a document: the largest number of arrays and objects open at the same
time when its text is read; a document that is neither an array nor an object has depth zero,
an empty array or object has depth one. -/
def JSON.depth : JSON → Nat
  | JSON.array elems => depthOfElems elems + 1
  | JSON.object members => depthOfMembers members + 1
  | _ => 0
/-- The largest nesting depth among the elements of an array. -/
def depthOfElems : List JSON → Nat
  | [] => 0
  | j :: rest => max j.depth (depthOfElems rest)
/-- The largest nesting depth among the member values of an object. -/
def depthOfMembers : List (String × JSON) → Nat
  | [] => 0
  | (_, j) :: rest => max j.depth (depthOfMembers rest)
end

/-- The syntax check every `json.Unmarshal` starts with (`checkValid`): the document of a valid
JSON text, `none` for a syntax error. The scanner gives the error `exceeded max depth` for a
text that opens more than `maxNestingDepth` arrays and objects inside one another, so a document
nested deeper than that has no text the codec accepts. -/
def jsonDocument : RawBytes → Option JSON
  | RawBytes.doc j => if j.depth ≤ maxNestingDepth then some j else none
  | _ => none

/-- The rule of `json.Unmarshal(data, &b)` for a `bool` target holding false. -/
def unmarshalBool (data : RawBytes) : Option Bool :=
  match jsonDocument data with
  | some (JSON.bool b) => some b
  | some JSON.null => some false
  | _ => none

/-- The rule of `json.Unmarshal(data, &s)` for a `string` target holding the empty string. -/
def unmarshalString (data : RawBytes) : Option String :=
  match jsonDocument data with
  | some (JSON.string s) => some s
  | some JSON.null => some ""
  | _ => none

/-- The rule of `json.Unmarshal(data, &n)` for a `float64` target holding zero; the result
tells whether `n != 0` afterwards. -/
def unmarshalFloat64NonZero (data : RawBytes) : Option Bool :=
  match jsonDocument data with
  | some (JSON.number x) => decodeFloat64NonZero x
  | some JSON.null => some false
  | _ => none

/-- The comparison of an object key with the field name `value`, ignoring case
(`bytes.EqualFold`; the letters of `value` fold only with their ASCII capitals). -/
def isValueKey (key : String) : Bool :=
  key.data.map Char.toLower = "value".data

/-- The member an object decodes into the field `Value`: the last one whose key matches. -/
def valueMember (members : List (String × JSON)) : Option JSON :=
  ((members.filter (fun m => isValueKey m.1)).getLast?).map (fun m => m.2)

/-- The rule of `json.Unmarshal(data, &wrapper)` for the struct with the single field
`Value json.RawMessage` tagged `value`: the raw message stored in `Value` (empty when no member
matches), or `none` for an error. A raw message taken from a document is the text of a member,
hence a JSON text. -/
def unmarshalWrapper (data : RawBytes) : Option RawBytes :=
  match jsonDocument data with
  | some (JSON.object members) =>
    match valueMember members with
    | some j => some (RawBytes.doc j)
    | none => some RawBytes.empty
  | some JSON.null => some RawBytes.empty
  | _ => none

/-- The decoding of the elements of an array into `[]uint64`: a number must decode into a
`uint64`, a null leaves the zero value, and anything else is an error. -/
def decodeUint64Elems : List JSON → Option (List Nat)
  | [] => some []
  | JSON.number x :: rest =>
    match decodeUint64 x, decodeUint64Elems rest with
    | some v, some vs => some (v :: vs)
    | _, _ => none
  | JSON.null :: rest =>
    match decodeUint64Elems rest with
    | some vs => some (0 :: vs)
    | none => none
  | _ :: _ => none

/-- The rule of `json.Unmarshal(data, &list)` for a nil `[]uint64` target; a JSON null leaves
the slice nil, read here as the empty list. -/
def unmarshalUint64Slice (data : RawBytes) : Option (List Nat) :=
  match jsonDocument data with
  | some (JSON.array elems) => decodeUint64Elems elems
  | some JSON.null => some []
  | _ => none

/-- The decoding of the elements of an array into `[]*uint64`: a number must decode into a
`uint64`, a null gives a nil pointer, and anything else is an error. -/
def decodeUint64PtrElems : List JSON → Option (List (Option Nat))
  | [] => some []
  | JSON.number x :: rest =>
    match decodeUint64 x, decodeUint64PtrElems rest with
    | some v, some vs => some (some v :: vs)
    | _, _ => none
  | JSON.null :: rest =>
    match decodeUint64PtrElems rest with
    | some vs => some (none :: vs)
    | none => none
  | _ :: _ => none

/-- The rule of `json.Unmarshal(data, &listPtr)` for a nil `[]*uint64` target. -/
def unmarshalUint64PtrSlice (data : RawBytes) : Option (List (Option Nat)) :=
  match jsonDocument data with
  | some (JSON.array elems) => decodeUint64PtrElems elems
  | some JSON.null => some []
  | _ => none

/-- The rule of `json.Unmarshal(data, &single)` for a `uint64` target holding zero. -/
def unmarshalUint64 (data : RawBytes) : Option Nat :=
  match jsonDocument data with
  | some (JSON.number x) => decodeUint64 x
  | some JSON.null => some 0
  | _ => none

/-- What `json.Marshal` writes for a `[]uint64`: the JSON null for a nil slice (`none`), the
array of the numbers otherwise. -/
def marshalUint64Slice : Option (List Nat) → RawBytes
  | none => RawBytes.doc JSON.null
  | some values => RawBytes.doc (JSON.array (values.map (fun v => JSON.number (natNumber v))))

/-! ## `UserGroupIDs.Scan` and `UserGroupIDs.Value` -/

/-- The errors `Scan`, `parseUserGroupIDsFromBytes` and `Value` return. -/
inductive UserGroupIDsError where
  | nilReceiver
  | nilTarget
  | unsupportedType
  | invalidJSON
  | marshal
deriving DecidableEq

/-- A value handed to `Scan` by the database driver (`any`): nil, a byte slice, a string, an
`int64`, a `uint64`, an `int`, or a value of another type. -/
inductive DriverValue where
  | null
  | bytes (data : RawBytes)
  | string (data : RawBytes)
  | int64 (n : Int)
  | uint64 (n : Nat)
  | int (n : Int)
  | other

/-- Go's conversion `uint64(n)` of a signed 64-bit integer: the value modulo `2^64`. -/
def uint64OfInt (n : Int) : Nat :=
  (n % (2 ^ 64 : Int)).toNat

/-- The source's `parseUserGroupIDsFromBytes` (user_group_ids.go, lines 65-99); `none` is a nil
target, and the result is the list stored in the target. -/
def parseUserGroupIDsFromBytes (target : Option UserGroupIDs) (data : RawBytes) :
    Except UserGroupIDsError UserGroupIDs :=
  match target with
  | none => Except.error UserGroupIDsError.nilTarget
  | some _ =>
    if data.isEmpty then Except.ok []
    else
      match unmarshalUint64Slice data with
      | some list => Except.ok (list.map some)
      | none =>
        match unmarshalUint64PtrSlice data with
        | some listPtr => Except.ok (Clean listPtr)
        | none =>
          match unmarshalUint64 data with
          | some single => Except.ok [some single]
          | none => Except.error UserGroupIDsError.invalidJSON

/-- The source's `UserGroupIDs.Scan` (lines 29-63); `none` is a nil receiver, and the result is
the list stored in the receiver. -/
def Scan (ids : Option UserGroupIDs) (value : DriverValue) :
    Except UserGroupIDsError UserGroupIDs :=
  match ids with
  | none => Except.error UserGroupIDsError.nilReceiver
  | some _ =>
    match value with
    | DriverValue.null => Except.ok []
    | DriverValue.bytes typed => parseUserGroupIDsFromBytes ids typed
    | DriverValue.string typed => parseUserGroupIDsFromBytes ids typed
    | DriverValue.int64 typed => Except.ok [some (uint64OfInt typed)]
    | DriverValue.uint64 typed => Except.ok [some typed]
    | DriverValue.int typed =>
      if typed < 0 then Except.ok [] else Except.ok [some (uint64OfInt typed)]
    | DriverValue.other => Except.error UserGroupIDsError.unsupportedType

/-- The loop of `Value` (lines 16-21): the ids the non-nil pointers point to, appended in
order. -/
def valueLoop : UserGroupIDs → List Nat → List Nat
  | [], values => values
  | none :: rest, values => valueLoop rest values
  | some v :: rest, values => valueLoop rest (values ++ [v])

/-- The source's `UserGroupIDs.Value` (lines 12-27). The slice handed to `json.Marshal` comes
from `make` and is never nil, and marshalling a `[]uint64` cannot fail. -/
def Value (ids : UserGroupIDs) : Except UserGroupIDsError RawBytes :=
  let cleaned := Clean ids
  let values := valueLoop cleaned []
  Except.ok (marshalUint64Slice (some values))

/-! ## `parseDBConfigBool` -/

/-- Go's `strings.EqualFold(s, "true")`: the letters of `true` fold only with their ASCII
capitals. -/
def equalFoldTrue (s : String) : Bool :=
  decide (s.data.map Char.toLower = "true".data)

mutual
/-- The source's `parseDBConfigBool` (models_middleware.go, lines 338-365) on the document of a
non-empty valid payload: the four `json.Unmarshal` attempts in the order of the source (bool,
string, float64, wrapper), each of which accepts one kind of document. A null is accepted by the
first attempt and leaves false; a number out of the `float64` range fails the third attempt and
is then rejected by the fourth. The raw message of the wrapper is part of a text the codec has
accepted and is nested less deep than it, so the calls on it pass the syntax check. -/
def parseDBConfigBoolDoc : JSON → Bool
  | JSON.null => false
  | JSON.bool b => b
  | JSON.string s =>
    if TrimSpace s = "" then false
    else if equalFoldTrue (TrimSpace s) = true ∨ TrimSpace s = "1" then true
    else false
  | JSON.number x =>
    match decodeFloat64NonZero x with
    | some nonZero => nonZero
    | none => false
  | JSON.array _ => false
  | JSON.object members => (parseValueMembers members none).getD false
/-- The decoding of an object into the wrapper, member by member, followed by the recursive call
on the raw message left in `Value`: `acc` is the outcome for the member stored so far. -/
def parseValueMembers : List (String × JSON) → Option Bool → Option Bool
  | [], acc => acc
  | (key, j) :: rest, acc =>
    if isValueKey key = true then parseValueMembers rest (some (parseDBConfigBoolDoc j))
    else parseValueMembers rest acc
end

/-- The source's `parseDBConfigBool` (lines 332-366). A payload that is no JSON text, or one
nested deeper than the codec accepts, fails all four attempts. -/
def parseDBConfigBool (raw : RawBytes) : Bool :=
  if (bytesTrimSpace raw).isEmpty then false
  else
    match jsonDocument (bytesTrimSpace raw) with
    | none => false
    | some j => parseDBConfigBoolDoc j

/-- The source's `dbConfigBool` (lines 323-330); `DBConfigValue` is the settings snapshot, which
returns the payload and whether the key is set. -/
def dbConfigBool (DBConfigValue : String → RawBytes × Bool) (key : String) : Bool :=
  if (DBConfigValue key).2 = false then false
  else parseDBConfigBool (DBConfigValue key).1

/-- The JSON text of the array 0, 1, 1, as a database could hold it. -/
def zeroAndDuplicateArray : RawBytes :=
  RawBytes.doc (JSON.array
    [JSON.number (natNumber 0), JSON.number (natNumber 1), JSON.number (natNumber 1)])

theorem cleanLoop_append (ids : List (Option Nat)) (seen : List Nat) (cleaned : UserGroupIDs) :
    cleanLoop ids seen cleaned = cleaned ++ cleanLoop ids seen [] := by
  induction ids generalizing seen cleaned with
  | nil => simp [cleanLoop]
  | cons h r ih =>
    cases h with
    | none => simpa [cleanLoop] using ih seen cleaned
    | some v =>
      by_cases h0 : v = 0
      · simpa [cleanLoop, h0] using ih seen cleaned
      · by_cases hs : v ∈ seen
        · simpa [cleanLoop, h0, hs] using ih seen cleaned
        · simp only [cleanLoop, h0, hs, if_false, List.nil_append]
          rw [ih (v :: seen) (cleaned ++ [some v]), ih (v :: seen) [some v]]
          simp

theorem cleanLoop_none (r : List (Option Nat)) (s : List Nat) :
    cleanLoop (none :: r) s [] = cleanLoop r s [] := by
  simp [cleanLoop]

theorem cleanLoop_skip (v : Nat) (r : List (Option Nat)) (s : List Nat) (h : v = 0 ∨ v ∈ s) :
    cleanLoop (some v :: r) s [] = cleanLoop r s [] := by
  by_cases h0 : v = 0
  · simp [cleanLoop, h0]
  · have hs : v ∈ s := h.resolve_left h0
    simp [cleanLoop, h0, hs]

theorem cleanLoop_keep (v : Nat) (r : List (Option Nat)) (s : List Nat) (h0 : v ≠ 0) (hs : v ∉ s) :
    cleanLoop (some v :: r) s [] = some v :: cleanLoop r (v :: s) [] := by
  simp only [cleanLoop, h0, hs, if_false, List.nil_append]
  rw [cleanLoop_append]
  simp

theorem mem_cleanLoop (ids : List (Option Nat)) (s : List Nat) (x : Option Nat) :
    x ∈ cleanLoop ids s [] ↔ ∃ v, x = some v ∧ v ≠ 0 ∧ v ∉ s ∧ some v ∈ ids := by
  induction ids generalizing s with
  | nil => simp [cleanLoop]
  | cons h r ih =>
    cases h with
    | none =>
      rw [cleanLoop_none, ih]
      simp
    | some w =>
      by_cases hk : w = 0 ∨ w ∈ s
      · rw [cleanLoop_skip w r s hk, ih]
        constructor
        · rintro ⟨v, rfl, h0, hs, hm⟩
          exact ⟨v, rfl, h0, hs, List.mem_cons_of_mem _ hm⟩
        · rintro ⟨v, rfl, h0, hs, hm⟩
          refine ⟨v, rfl, h0, hs, ?_⟩
          rcases List.mem_cons.1 hm with heq | hm
          · exfalso
            have : v = w := Option.some.inj heq
            subst this
            rcases hk with hk | hk
            · exact h0 hk
            · exact hs hk
          · exact hm
      · have h0 : w ≠ 0 := fun h => hk (Or.inl h)
        have hs : w ∉ s := fun h => hk (Or.inr h)
        rw [cleanLoop_keep w r s h0 hs, List.mem_cons, ih]
        constructor
        · rintro (rfl | ⟨v, rfl, hv0, hvs, hm⟩)
          · exact ⟨w, rfl, h0, hs, List.mem_cons_self _ _⟩
          · exact ⟨v, rfl, hv0, fun h => hvs (List.mem_cons_of_mem _ h), List.mem_cons_of_mem _ hm⟩
        · rintro ⟨v, rfl, hv0, hvs, hm⟩
          by_cases hvw : v = w
          · left; rw [hvw]
          · right
            refine ⟨v, rfl, hv0, ?_, ?_⟩
            · intro h
              rcases List.mem_cons.1 h with h | h
              · exact hvw h
              · exact hvs h
            · rcases List.mem_cons.1 hm with heq | hm
              · exact absurd (Option.some.inj heq) hvw
              · exact hm

theorem nodup_cleanLoop (ids : List (Option Nat)) (s : List Nat) :
    (cleanLoop ids s []).Nodup := by
  induction ids generalizing s with
  | nil => simp [cleanLoop]
  | cons h r ih =>
    cases h with
    | none => rw [cleanLoop_none]; exact ih s
    | some w =>
      by_cases hk : w = 0 ∨ w ∈ s
      · rw [cleanLoop_skip w r s hk]; exact ih s
      · have h0 : w ≠ 0 := fun h => hk (Or.inl h)
        have hs : w ∉ s := fun h => hk (Or.inr h)
        rw [cleanLoop_keep w r s h0 hs, List.nodup_cons]
        refine ⟨?_, ih _⟩
        rw [mem_cleanLoop]
        rintro ⟨v, hv, _, hvs, _⟩
        have : w = v := Option.some.inj hv
        subst this
        exact hvs (List.mem_cons_self _ _)

theorem indexOf_head_ne (a b : Option Nat) (l : List (Option Nat)) (h : b ≠ a) :
    List.indexOf a (b :: l) = List.indexOf a l + 1 := by
  have hb : (b == a) = false := by simpa using h
  rw [List.indexOf_cons, hb]
  rfl

theorem indexOf_head_self (a : Option Nat) (l : List (Option Nat)) :
    List.indexOf a (a :: l) = 0 := by
  have hb : (a == a) = true := by simp
  rw [List.indexOf_cons, hb]
  rfl

theorem indexOf_cleanLoop (ids : List (Option Nat)) (s : List Nat) (x y : Option Nat)
    (hx : x ∈ cleanLoop ids s []) (hy : y ∈ cleanLoop ids s []) :
    (List.indexOf x (cleanLoop ids s []) < List.indexOf y (cleanLoop ids s []) ↔
      List.indexOf x ids < List.indexOf y ids) := by
  induction ids generalizing s with
  | nil => simp [cleanLoop] at hx
  | cons h r ih =>
    have skip : cleanLoop (h :: r) s [] = cleanLoop r s [] → h ∉ cleanLoop r s [] →
        (List.indexOf x (cleanLoop (h :: r) s []) < List.indexOf y (cleanLoop (h :: r) s []) ↔
          List.indexOf x (h :: r) < List.indexOf y (h :: r)) := by
      intro heq hh
      rw [heq] at hx hy ⊢
      have hxh : h ≠ x := fun e => hh (e ▸ hx)
      have hyh : h ≠ y := fun e => hh (e ▸ hy)
      rw [indexOf_head_ne _ _ _ hxh, indexOf_head_ne _ _ _ hyh, Nat.add_lt_add_iff_right]
      exact ih s hx hy
    cases h with
    | none =>
      apply skip (cleanLoop_none r s)
      rw [mem_cleanLoop]
      rintro ⟨v, hv, _⟩
      cases hv
    | some w =>
      by_cases hk : w = 0 ∨ w ∈ s
      · apply skip (cleanLoop_skip w r s hk)
        rw [mem_cleanLoop]
        rintro ⟨v, hv, h0, hs, _⟩
        have : w = v := Option.some.inj hv
        subst this
        rcases hk with hk | hk
        · exact h0 hk
        · exact hs hk
      · have h0 : w ≠ 0 := fun h => hk (Or.inl h)
        have hs : w ∉ s := fun h => hk (Or.inr h)
        rw [cleanLoop_keep w r s h0 hs] at hx hy ⊢
        by_cases hxw : some w = x
        · subst hxw
          rw [indexOf_head_self, indexOf_head_self]
          by_cases hyw : some w = y
          · subst hyw
            rw [indexOf_head_self, indexOf_head_self]
          · rw [indexOf_head_ne _ _ _ hyw, indexOf_head_ne _ _ _ hyw]
            simp
        · have hx2 : x ∈ cleanLoop r (w :: s) [] := by
            rcases List.mem_cons.1 hx with e | e
            · exact absurd e.symm hxw
            · exact e
          rw [indexOf_head_ne _ _ _ hxw, indexOf_head_ne _ _ _ hxw]
          by_cases hyw : some w = y
          · subst hyw
            rw [indexOf_head_self, indexOf_head_self]
            simp
          · have hy2 : y ∈ cleanLoop r (w :: s) [] := by
              rcases List.mem_cons.1 hy with e | e
              · exact absurd e.symm hyw
              · exact e
            rw [indexOf_head_ne _ _ _ hyw, indexOf_head_ne _ _ _ hyw, Nat.add_lt_add_iff_right,
              Nat.add_lt_add_iff_right]
            exact ih (w :: s) hx2 hy2

theorem Clean_eq_cleanLoop (ids : UserGroupIDs) : Clean ids = cleanLoop ids [] [] := by
  unfold Clean
  cases ids with
  | nil => simp [cleanLoop]
  | cons h r =>
    simp only [List.length_cons, Nat.succ_ne_zero, if_false]
    by_cases hc : (cleanLoop (h :: r) [] []).length = 0
    · simp only [hc, if_true]
      exact (List.length_eq_zero.1 hc).symm
    · simp only [hc, if_false]

/-- C10: `Clean ids` holds no nil pointer, no zero id and no id twice; its ids are exactly the
non-zero ids of `ids`, ordered by first occurrence in `ids`; and it is empty when `ids` has no
non-zero id. -/
theorem Clean_spec (ids : UserGroupIDs) :
    none ∉ Clean ids ∧ some 0 ∉ Clean ids ∧ (Clean ids).Nodup ∧
    (∀ v : Nat, some v ∈ Clean ids ↔ v ≠ 0 ∧ some v ∈ ids) ∧
    (∀ x y, x ∈ Clean ids → y ∈ Clean ids →
      (List.indexOf x (Clean ids) < List.indexOf y (Clean ids) ↔
        List.indexOf x ids < List.indexOf y ids)) ∧
    ((∀ v : Nat, some v ∈ ids → v = 0) → Clean ids = []) := by
  rw [Clean_eq_cleanLoop]
  refine ⟨?_, ?_, nodup_cleanLoop ids [], ?_, ?_, ?_⟩
  · rw [mem_cleanLoop]
    rintro ⟨v, hv, _⟩
    cases hv
  · rw [mem_cleanLoop]
    rintro ⟨v, hv, h0, _⟩
    exact h0 (Option.some.inj hv).symm
  · intro v
    rw [mem_cleanLoop]
    constructor
    · rintro ⟨w, hw, h0, _, hm⟩
      have : v = w := Option.some.inj hw
      subst this
      exact ⟨h0, hm⟩
    · rintro ⟨h0, hm⟩
      exact ⟨v, rfl, h0, List.not_mem_nil _, hm⟩
  · intro x y hx hy
    exact indexOf_cleanLoop ids [] x y hx hy
  · intro hall
    apply List.eq_nil_iff_forall_not_mem.2
    intro x hx
    rw [mem_cleanLoop] at hx
    obtain ⟨v, _, h0, _, hm⟩ := hx
    exact h0 (hall v hm)

theorem valuesLoop_map_some (ids : List (Option Nat)) (seen values : List Nat) :
    (valuesLoop ids seen values).map some = cleanLoop ids seen (values.map some) := by
  induction ids generalizing seen values with
  | nil => simp [valuesLoop, cleanLoop]
  | cons h r ih =>
    cases h with
    | none => simpa [valuesLoop, cleanLoop] using ih seen values
    | some v =>
      by_cases h0 : v = 0
      · simpa [valuesLoop, cleanLoop, h0] using ih seen values
      · by_cases hs : v ∈ seen
        · simpa [valuesLoop, cleanLoop, h0, hs] using ih seen values
        · simp only [valuesLoop, cleanLoop, h0, hs, if_false]
          rw [ih (v :: seen) (values ++ [v])]
          simp

theorem Values_map_some (ids : UserGroupIDs) : (Values ids).map some = Clean ids := by
  rw [Clean_eq_cleanLoop]
  unfold Values
  cases ids with
  | nil => simp [cleanLoop]
  | cons h r =>
    simp only [List.length_cons, Nat.succ_ne_zero, if_false]
    exact valuesLoop_map_some (h :: r) [] []

theorem mem_Clean (ids : UserGroupIDs) (v : Nat) :
    some v ∈ Clean ids ↔ v ≠ 0 ∧ some v ∈ ids := by
  rw [Clean_eq_cleanLoop, mem_cleanLoop]
  constructor
  · rintro ⟨w, hw, h0, _, hm⟩
    have : v = w := Option.some.inj hw
    subst this
    exact ⟨h0, hm⟩
  · rintro ⟨h0, hm⟩
    exact ⟨v, rfl, h0, List.not_mem_nil _, hm⟩

theorem mem_Values (ids : UserGroupIDs) (v : Nat) :
    v ∈ Values ids ↔ v ≠ 0 ∧ some v ∈ ids := by
  rw [← mem_Clean, ← Values_map_some, List.mem_map]
  constructor
  · intro h
    exact ⟨v, h, rfl⟩
  · rintro ⟨w, hw, he⟩
    have : w = v := Option.some.inj he
    subst this
    exact hw

theorem mem_addMembership (membership l : List Nat) (x : Nat) :
    x ∈ addMembership membership l ↔ x ∈ membership ∨ (x ≠ 0 ∧ x ∈ l) := by
  induction l generalizing membership with
  | nil => simp [addMembership]
  | cons h r ih =>
    by_cases h0 : h = 0
    · simp only [addMembership, h0, if_true]
      rw [ih]
      constructor
      · rintro (hm | ⟨hx, hm⟩)
        · exact Or.inl hm
        · exact Or.inr ⟨hx, List.mem_cons_of_mem _ hm⟩
      · rintro (hm | ⟨hx, hm⟩)
        · exact Or.inl hm
        · rcases List.mem_cons.1 hm with e | hm
          · exact absurd e hx
          · exact Or.inr ⟨hx, hm⟩
    · simp only [addMembership, h0, if_false]
      rw [ih, List.mem_cons]
      constructor
      · rintro ((e | hm) | ⟨hx, hm⟩)
        · exact Or.inr ⟨e ▸ h0, e ▸ List.mem_cons_self _ _⟩
        · exact Or.inl hm
        · exact Or.inr ⟨hx, List.mem_cons_of_mem _ hm⟩
      · rintro (hm | ⟨hx, hm⟩)
        · exact Or.inl (Or.inr hm)
        · rcases List.mem_cons.1 hm with e | hm
          · exact Or.inl (Or.inl e)
          · exact Or.inr ⟨hx, hm⟩

theorem anyAllowedLoop_iff (membership : List Nat) (allowed : UserGroupIDs) :
    anyAllowedLoop membership allowed = true ↔
      ∃ v : Nat, v ≠ 0 ∧ some v ∈ allowed ∧ v ∈ membership := by
  induction allowed with
  | nil => simp [anyAllowedLoop]
  | cons h r ih =>
    cases h with
    | none =>
      simp only [anyAllowedLoop]
      rw [ih]
      constructor
      · rintro ⟨v, h0, hm, hv⟩
        exact ⟨v, h0, List.mem_cons_of_mem _ hm, hv⟩
      · rintro ⟨v, h0, hm, hv⟩
        rcases List.mem_cons.1 hm with e | hm
        · cases e
        · exact ⟨v, h0, hm, hv⟩
    | some w =>
      by_cases h0 : w = 0
      · simp only [anyAllowedLoop, h0, if_true]
        rw [ih]
        constructor
        · rintro ⟨v, hv0, hm, hv⟩
          exact ⟨v, hv0, List.mem_cons_of_mem _ hm, hv⟩
        · rintro ⟨v, hv0, hm, hv⟩
          rcases List.mem_cons.1 hm with e | hm
          · exact absurd (Option.some.inj e) hv0
          · exact ⟨v, hv0, hm, hv⟩
      · by_cases hw : w ∈ membership
        · simp only [anyAllowedLoop, h0, hw, if_true, if_false, true_iff]
          exact ⟨w, h0, List.mem_cons_self _ _, hw⟩
        · simp only [anyAllowedLoop, h0, hw, if_false]
          rw [ih]
          constructor
          · rintro ⟨v, hv0, hm, hv⟩
            exact ⟨v, hv0, List.mem_cons_of_mem _ hm, hv⟩
          · rintro ⟨v, hv0, hm, hv⟩
            rcases List.mem_cons.1 hm with e | hm
            · exact absurd ((Option.some.inj e) ▸ hv) hw
            · exact ⟨v, hv0, hm, hv⟩

theorem Clean_length_eq_zero (ids : UserGroupIDs) :
    (Clean ids).length = 0 ↔ ¬ ∃ v : Nat, v ≠ 0 ∧ some v ∈ ids := by
  rw [List.length_eq_zero]
  constructor
  · rintro h ⟨v, h0, hm⟩
    have : some v ∈ Clean ids := (mem_Clean ids v).2 ⟨h0, hm⟩
    rw [h] at this
    exact List.not_mem_nil _ this
  · intro h
    apply List.eq_nil_iff_forall_not_mem.2
    intro x hx
    rw [Clean_eq_cleanLoop, mem_cleanLoop] at hx
    obtain ⟨v, _, h0, _, hm⟩ := hx
    exact h ⟨v, h0, hm⟩

theorem hasAnyAllowedUserGroup_or (allowed userGroups billUserGroups : UserGroupIDs) :
    hasAnyAllowedUserGroup allowed userGroups billUserGroups = true ↔
      (¬ ∃ v : Nat, v ≠ 0 ∧ some v ∈ allowed) ∨
      (∃ v : Nat, v ≠ 0 ∧ some v ∈ allowed ∧ (some v ∈ userGroups ∨ some v ∈ billUserGroups)) := by
  unfold hasAnyAllowedUserGroup
  by_cases hc : (Clean allowed).length = 0
  · simp only [hc, if_true, true_iff]
    exact Or.inl ((Clean_length_eq_zero allowed).1 hc)
  · simp only [hc, if_false]
    rw [anyAllowedLoop_iff]
    have hex : ∃ v : Nat, v ≠ 0 ∧ some v ∈ allowed := by
      by_contra hne
      exact hc ((Clean_length_eq_zero allowed).2 hne)
    constructor
    · rintro ⟨v, h0, hm, hv⟩
      right
      refine ⟨v, h0, ((mem_Clean allowed v).1 hm).2, ?_⟩
      rw [mem_addMembership, mem_addMembership, mem_Values, mem_Values] at hv
      rcases hv with (hv | ⟨_, _, hv⟩) | ⟨_, _, hv⟩
      · exact absurd hv (List.not_mem_nil _)
      · exact Or.inl hv
      · exact Or.inr hv
    · rintro (hno | ⟨v, h0, hm, hv⟩)
      · exact absurd hex hno
      · refine ⟨v, h0, (mem_Clean allowed v).2 ⟨h0, hm⟩, ?_⟩
        rw [mem_addMembership, mem_addMembership, mem_Values, mem_Values]
        rcases hv with hv | hv
        · exact Or.inl (Or.inr ⟨h0, h0, hv⟩)
        · exact Or.inr ⟨h0, h0, hv⟩


/-- C1: `hasAnyAllowedUserGroup allowed userGroups billUserGroups` is true exactly when `allowed`
holds no non-nil non-zero id, or some non-zero id of `allowed` is an id of `userGroups` or of
`billUserGroups` (membership in the union of the access and billing sets). -/
theorem hasAnyAllowedUserGroup_iff (allowed userGroups billUserGroups : UserGroupIDs) :
    hasAnyAllowedUserGroup allowed userGroups billUserGroups = true ↔
      (¬ ∃ v : Nat, v ≠ 0 ∧ some v ∈ allowed) ∨
      (∃ v : Nat, v ≠ 0 ∧ some v ∈ allowed ∧ (some v ∈ userGroups ∨ some v ∈ billUserGroups)) :=
  hasAnyAllowedUserGroup_or allowed userGroups billUserGroups
theorem excludedByPolicy_iff (lookup : PolicyLookup) (provider model : String)
    (userGroups billUserGroups : UserGroupIDs) :
    excludedByPolicy lookup provider model userGroups billUserGroups = true ↔
      (lookup provider model).2 = true ∧
      (∃ v : Nat, v ≠ 0 ∧ some v ∈ (lookup provider model).1) ∧
      ¬ ∃ v : Nat, v ≠ 0 ∧ some v ∈ (lookup provider model).1 ∧
        (some v ∈ userGroups ∨ some v ∈ billUserGroups) := by
  unfold excludedByPolicy
  have hlen : (Clean (lookup provider model).1).length > 0 ↔
      ∃ v : Nat, v ≠ 0 ∧ some v ∈ (lookup provider model).1 := by
    show 0 < _ ↔ _
    rw [Nat.pos_iff_ne_zero, Ne, Clean_length_eq_zero, not_not]
  have hany := hasAnyAllowedUserGroup_or (lookup provider model).1 userGroups billUserGroups
  simp only [Bool.and_eq_true, decide_eq_true_eq, Bool.not_eq_true', hlen]
  constructor
  · rintro ⟨⟨hf, hex⟩, hno⟩
    refine ⟨hf, hex, ?_⟩
    intro hcommon
    have : hasAnyAllowedUserGroup (lookup provider model).1 userGroups billUserGroups = true :=
      hany.2 (Or.inr hcommon)
    rw [hno] at this
    exact Bool.false_ne_true this
  · rintro ⟨hf, hex, hno⟩
    refine ⟨⟨hf, hex⟩, ?_⟩
    cases hb : hasAnyAllowedUserGroup (lookup provider model).1 userGroups billUserGroups with
    | false => rfl
    | true =>
      rcases hany.1 hb with h | h
      · exact absurd hex h
      · exact absurd h hno

theorem filterModelInfosLoop_eq_filter (toLower : String → String) (lookup : PolicyLookup)
    (userGroups billUserGroups : UserGroupIDs) (raw : List (Option ModelInfo)) :
    filterModelInfosLoop toLower lookup userGroups billUserGroups raw =
      raw.filter (fun e =>
        match e with
        | none => false
        | some info =>
          decide (TrimSpace info.ID ≠ "") &&
            !(decide (toLower (TrimSpace info.OwnedBy) ≠ "") &&
              excludedByPolicy lookup (toLower (TrimSpace info.OwnedBy)) (TrimSpace info.ID)
                userGroups billUserGroups)) := by
  induction raw with
  | nil => simp [filterModelInfosLoop]
  | cons h r ih =>
    cases h with
    | none => simp [filterModelInfosLoop, ih]
    | some info =>
      by_cases hid : TrimSpace info.ID = ""
      · simp [filterModelInfosLoop, hid, ih]
      · by_cases hp : toLower (TrimSpace info.OwnedBy) = ""
        · simp [filterModelInfosLoop, hid, hp, ih]
        · cases hx : excludedByPolicy lookup (toLower (TrimSpace info.OwnedBy))
            (TrimSpace info.ID) userGroups billUserGroups <;>
            simp [filterModelInfosLoop, hid, hp, hx, ih]

/-- C2: `filterModelInfosByUserGroups` returns, in input order, exactly the entries of `raw` that
are non-nil, have a non-blank ID, and are not excluded by the model policy. An entry is excluded
only when the lookup for (lowercased trimmed OwnedBy, trimmed ID) is made (the provider is
non-blank), reports found, returns a set with a non-zero id, and that set shares no id with the
caller's access or billing groups. Hence an entry is kept whenever the lookup reports not found
or a set without non-zero id, and a dropped well-formed entry always has a non-empty looked-up
set disjoint from the caller's groups. -/
theorem filterModelInfosByUserGroups_spec (toLower : String → String) (lookup : PolicyLookup)
    (raw : List (Option ModelInfo)) (userGroups billUserGroups : UserGroupIDs) :
    (∃ keep : Option ModelInfo → Bool,
      filterModelInfosByUserGroups toLower lookup raw userGroups billUserGroups = raw.filter keep ∧
      ∀ e, keep e = true ↔ ∃ info, e = some info ∧ TrimSpace info.ID ≠ "" ∧
        (toLower (TrimSpace info.OwnedBy) = "" ∨
          (lookup (toLower (TrimSpace info.OwnedBy)) (TrimSpace info.ID)).2 = false ∨
          (¬ ∃ v : Nat, v ≠ 0 ∧
            some v ∈ (lookup (toLower (TrimSpace info.OwnedBy)) (TrimSpace info.ID)).1) ∨
          (∃ v : Nat, v ≠ 0 ∧
            some v ∈ (lookup (toLower (TrimSpace info.OwnedBy)) (TrimSpace info.ID)).1 ∧
            (some v ∈ userGroups ∨ some v ∈ billUserGroups)))) ∧
    (∀ info, some info ∈ raw → TrimSpace info.ID ≠ "" →
      ((lookup (toLower (TrimSpace info.OwnedBy)) (TrimSpace info.ID)).2 = false ∨
        ¬ ∃ v : Nat, v ≠ 0 ∧
          some v ∈ (lookup (toLower (TrimSpace info.OwnedBy)) (TrimSpace info.ID)).1) →
      some info ∈ filterModelInfosByUserGroups toLower lookup raw userGroups billUserGroups) ∧
    (∀ info, some info ∈ raw → TrimSpace info.ID ≠ "" →
      some info ∉ filterModelInfosByUserGroups toLower lookup raw userGroups billUserGroups →
      (lookup (toLower (TrimSpace info.OwnedBy)) (TrimSpace info.ID)).2 = true ∧
      (∃ v : Nat, v ≠ 0 ∧
        some v ∈ (lookup (toLower (TrimSpace info.OwnedBy)) (TrimSpace info.ID)).1) ∧
      ¬ ∃ v : Nat, v ≠ 0 ∧
        some v ∈ (lookup (toLower (TrimSpace info.OwnedBy)) (TrimSpace info.ID)).1 ∧
        (some v ∈ userGroups ∨ some v ∈ billUserGroups)) := by
  have hfilter : filterModelInfosByUserGroups toLower lookup raw userGroups billUserGroups =
      raw.filter (fun e =>
        match e with
        | none => false
        | some info =>
          decide (TrimSpace info.ID ≠ "") &&
            !(decide (toLower (TrimSpace info.OwnedBy) ≠ "") &&
              excludedByPolicy lookup (toLower (TrimSpace info.OwnedBy)) (TrimSpace info.ID)
                userGroups billUserGroups)) := by
    unfold filterModelInfosByUserGroups
    by_cases hlen : raw.length = 0
    · rw [List.length_eq_zero.1 hlen]
      simp
    · simp only [hlen, if_false]
      exact filterModelInfosLoop_eq_filter toLower lookup userGroups billUserGroups raw
  have hkeep : ∀ info : ModelInfo,
      (decide (TrimSpace info.ID ≠ "") &&
        !(decide (toLower (TrimSpace info.OwnedBy) ≠ "") &&
          excludedByPolicy lookup (toLower (TrimSpace info.OwnedBy)) (TrimSpace info.ID)
            userGroups billUserGroups)) = true ↔
      TrimSpace info.ID ≠ "" ∧
        (toLower (TrimSpace info.OwnedBy) = "" ∨
          (lookup (toLower (TrimSpace info.OwnedBy)) (TrimSpace info.ID)).2 = false ∨
          (¬ ∃ v : Nat, v ≠ 0 ∧
            some v ∈ (lookup (toLower (TrimSpace info.OwnedBy)) (TrimSpace info.ID)).1) ∨
          (∃ v : Nat, v ≠ 0 ∧
            some v ∈ (lookup (toLower (TrimSpace info.OwnedBy)) (TrimSpace info.ID)).1 ∧
            (some v ∈ userGroups ∨ some v ∈ billUserGroups))) := by
    intro info
    have hx := excludedByPolicy_iff lookup (toLower (TrimSpace info.OwnedBy)) (TrimSpace info.ID)
      userGroups billUserGroups
    rw [Bool.and_eq_true, decide_eq_true_eq, Bool.not_eq_true', Bool.and_eq_false_iff,
      decide_eq_false_iff_not, not_not]
    constructor
    · rintro ⟨hid, hp | hex⟩
      · exact ⟨hid, Or.inl hp⟩
      · refine ⟨hid, ?_⟩
        have hnot : ¬ excludedByPolicy lookup (toLower (TrimSpace info.OwnedBy))
            (TrimSpace info.ID) userGroups billUserGroups = true := by
          rw [hex]; exact Bool.false_ne_true
        rw [hx] at hnot
        by_cases hf : (lookup (toLower (TrimSpace info.OwnedBy)) (TrimSpace info.ID)).2 = true
        · by_cases he : ∃ v : Nat, v ≠ 0 ∧
              some v ∈ (lookup (toLower (TrimSpace info.OwnedBy)) (TrimSpace info.ID)).1
          · right; right; right
            by_contra hc
            exact hnot ⟨hf, he, hc⟩
          · right; right; left
            exact he
        · right; left
          simpa using hf
    · rintro ⟨hid, hp | hf | he | hc⟩
      · exact ⟨hid, Or.inl hp⟩
      · refine ⟨hid, Or.inr ?_⟩
        cases hb : excludedByPolicy lookup (toLower (TrimSpace info.OwnedBy))
            (TrimSpace info.ID) userGroups billUserGroups with
        | false => rfl
        | true =>
          have := (hx.1 hb).1
          rw [hf] at this
          exact absurd this Bool.false_ne_true
      · refine ⟨hid, Or.inr ?_⟩
        cases hb : excludedByPolicy lookup (toLower (TrimSpace info.OwnedBy))
            (TrimSpace info.ID) userGroups billUserGroups with
        | false => rfl
        | true => exact absurd (hx.1 hb).2.1 he
      · refine ⟨hid, Or.inr ?_⟩
        cases hb : excludedByPolicy lookup (toLower (TrimSpace info.OwnedBy))
            (TrimSpace info.ID) userGroups billUserGroups with
        | false => rfl
        | true => exact absurd hc (hx.1 hb).2.2
  refine ⟨⟨_, hfilter, ?_⟩, ?_, ?_⟩
  · intro e
    cases e with
    | none => simp
    | some info =>
      constructor
      · intro h
        exact ⟨info, rfl, (hkeep info).1 h⟩
      · rintro ⟨info2, he, h⟩
        cases he
        exact (hkeep info).2 h
  · intro info hmem hid hopen
    rw [hfilter, List.mem_filter]
    refine ⟨hmem, (hkeep info).2 ⟨hid, ?_⟩⟩
    rcases hopen with h | h
    · exact Or.inr (Or.inl h)
    · exact Or.inr (Or.inr (Or.inl h))
  · intro info hmem hid hnot
    rw [hfilter, List.mem_filter] at hnot
    have hk : ¬ (TrimSpace info.ID ≠ "" ∧
        (toLower (TrimSpace info.OwnedBy) = "" ∨
          (lookup (toLower (TrimSpace info.OwnedBy)) (TrimSpace info.ID)).2 = false ∨
          (¬ ∃ v : Nat, v ≠ 0 ∧
            some v ∈ (lookup (toLower (TrimSpace info.OwnedBy)) (TrimSpace info.ID)).1) ∨
          (∃ v : Nat, v ≠ 0 ∧
            some v ∈ (lookup (toLower (TrimSpace info.OwnedBy)) (TrimSpace info.ID)).1 ∧
            (some v ∈ userGroups ∨ some v ∈ billUserGroups)))) := by
      intro hk
      exact hnot ⟨hmem, (hkeep info).2 hk⟩
    refine ⟨?_, ?_, ?_⟩
    · by_contra hf
      exact hk ⟨hid, Or.inr (Or.inl (by simpa using hf))⟩
    · by_contra he
      exact hk ⟨hid, Or.inr (Or.inr (Or.inl he))⟩
    · intro hc
      exact hk ⟨hid, Or.inr (Or.inr (Or.inr hc))⟩

theorem foldl_digits_ge (cs : List Char) (n : Nat) :
    n ≤ cs.foldl (fun acc c => acc * 10 + (c.toNat - 48)) n := by
  induction cs generalizing n with
  | nil => exact Nat.le_refl n
  | cons c r ih =>
    have h := ih (n * 10 + (c.toNat - 48))
    simp only [List.foldl_cons]
    omega

theorem parseUintLoop_eq_some (cs : List Char) (n r : Nat) (hn : n ≤ maxUint64) :
    parseUintLoop cs n = some r ↔
      (∀ c ∈ cs, c.isDigit = true) ∧
      cs.foldl (fun acc c => acc * 10 + (c.toNat - 48)) n = r ∧ r ≤ maxUint64 := by
  induction cs generalizing n with
  | nil =>
    simp only [parseUintLoop, Option.some.injEq, List.not_mem_nil, false_implies, implies_true,
      List.foldl_nil, true_and]
    constructor
    · rintro rfl
      exact ⟨rfl, hn⟩
    · rintro ⟨h, _⟩
      exact h
  | cons c rest ih =>
    have hmax : maxUint64 = 18446744073709551615 := by decide
    by_cases hd : c.isDigit = true
    · have hge := foldl_digits_ge rest (n * 10 + (c.toNat - 48))
      by_cases hcut : n ≥ maxUint64 / 10 + 1
      · simp only [parseUintLoop, hd, hcut, if_true, List.foldl_cons]
        constructor
        · intro h
          cases h
        · rintro ⟨_, hv, hr⟩
          rw [hmax] at hcut hr
          omega
      · by_cases hover : n * 10 + (c.toNat - 48) > maxUint64
        · simp only [parseUintLoop, hd, hcut, hover, if_true, if_false, List.foldl_cons]
          constructor
          · intro h
            cases h
          · rintro ⟨_, hv, hr⟩
            omega
        · simp only [parseUintLoop, hd, hcut, hover, if_true, if_false, List.foldl_cons]
          rw [ih (n * 10 + (c.toNat - 48)) (Nat.le_of_not_gt hover)]
          constructor
          · rintro ⟨hall, hv, hr⟩
            refine ⟨?_, hv, hr⟩
            intro x hx
            rcases List.mem_cons.1 hx with e | e
            · rw [e]; exact hd
            · exact hall x e
          · rintro ⟨hall, hv, hr⟩
            exact ⟨fun x hx => hall x (List.mem_cons_of_mem _ hx), hv, hr⟩
    · simp only [parseUintLoop, hd, if_false]
      constructor
      · intro h
        cases h
      · rintro ⟨hall, _⟩
        exact absurd (hall c (List.mem_cons_self _ _)) hd

/-- `ParseUint` accepts exactly the non-empty strings of decimal digits whose value fits in
64 bits, and returns that value. -/
theorem ParseUint_eq_some_iff (s : String) (n : Nat) :
    ParseUint s = some n ↔
      s.data ≠ [] ∧ (∀ c ∈ s.data, c.isDigit = true) ∧ decimalValue s.data = n ∧
        n ≤ maxUint64 := by
  unfold ParseUint decimalValue
  by_cases he : s.data.length = 0
  · simp only [he, if_true]
    constructor
    · intro h
      cases h
    · rintro ⟨hne, _⟩
      exact absurd (List.length_eq_zero.1 he) hne
  · simp only [he, if_false]
    rw [parseUintLoop_eq_some s.data 0 n (Nat.zero_le _)]
    constructor
    · intro h
      exact ⟨fun hnil => he (by rw [hnil]; rfl), h⟩
    · rintro ⟨_, h⟩
      exact h

theorem ParseUint_empty : ParseUint "" = none := by
  unfold ParseUint
  simp

theorem loadUserGroupMembership_found (c : Option GinContext) (db : Option DB)
    (ctx : GinContext) (d : DB) (m : List (String × String)) (n : Nat) (user : User)
    (hc : c = some ctx) (hd : db = some d)
    (hm : ctx.accessMetadata = some (ContextValue.stringMap m))
    (hp : ParseUint (TrimSpace (metaGet m "user_id")) = some n) (hn : n ≠ 0)
    (hu : d.firstUser n = some user) :
    loadUserGroupMembership c db =
      ⟨some (Clean user.UserGroupID), some (Clean user.BillUserGroupID), true⟩ := by
  subst hc
  subst hd
  have hne : TrimSpace (metaGet m "user_id") ≠ "" := by
    intro h
    rw [h, ParseUint_empty] at hp
    cases hp
  simp only [loadUserGroupMembership, hm, hne, if_false, hp, hn, hu]

theorem loadUserGroupMembership_cases (c : Option GinContext) (db : Option DB) :
    loadUserGroupMembership c db = ⟨none, none, false⟩ ∨
      ∃ ctx d m n user, c = some ctx ∧ db = some d ∧
        ctx.accessMetadata = some (ContextValue.stringMap m) ∧
        ParseUint (TrimSpace (metaGet m "user_id")) = some n ∧ n ≠ 0 ∧
        d.firstUser n = some user := by
  cases c with
  | none => left; simp [loadUserGroupMembership]
  | some ctx =>
    cases db with
    | none => left; simp [loadUserGroupMembership]
    | some d =>
      cases hm : ctx.accessMetadata with
      | none => left; simp [loadUserGroupMembership, hm]
      | some val =>
        cases val with
        | other => left; simp [loadUserGroupMembership, hm]
        | stringMap m =>
          by_cases hb : TrimSpace (metaGet m "user_id") = ""
          · left; simp [loadUserGroupMembership, hm, hb]
          · cases hp : ParseUint (TrimSpace (metaGet m "user_id")) with
            | none => left; simp [loadUserGroupMembership, hm, hb, hp]
            | some n =>
              by_cases hn : n = 0
              · left; simp [loadUserGroupMembership, hm, hb, hp, hn]
              · cases hu : d.firstUser n with
                | none => left; simp [loadUserGroupMembership, hm, hb, hp, hn, hu]
                | some user => right; exact ⟨ctx, d, m, n, user, rfl, rfl, hm, hp, hn, hu⟩

theorem loadUserGroupMembership_ok (c : Option GinContext) (db : Option DB)
    (hok : (loadUserGroupMembership c db).ok = true) :
    ∃ ctx d m n user, c = some ctx ∧ db = some d ∧
      ctx.accessMetadata = some (ContextValue.stringMap m) ∧
      ParseUint (TrimSpace (metaGet m "user_id")) = some n ∧ n ≠ 0 ∧
      d.firstUser n = some user ∧
      loadUserGroupMembership c db =
        ⟨some (Clean user.UserGroupID), some (Clean user.BillUserGroupID), true⟩ := by
  rcases loadUserGroupMembership_cases c db with h | ⟨ctx, d, m, n, user, hc, hd, hm, hp, hn, hu⟩
  · rw [h] at hok
    cases hok
  · exact ⟨ctx, d, m, n, user, hc, hd, hm, hp, hn, hu,
      loadUserGroupMembership_found c db ctx d m n user hc hd hm hp hn hu⟩

/-- C8: `loadUserGroupMembership` returns ok=false with both group sets nil whenever the context
or the database handle is nil, the request has no `accessMetadata` string map, or its `user_id`
is blank after trimming, is not a base-10 unsigned 64-bit number, is zero, or the user lookup
fails. It returns ok=true only when the user is found, and then (and always then) the results
are the cleaned access set and the cleaned billing set of that user, as two separate sets. -/
theorem loadUserGroupMembership_spec (c : Option GinContext) (db : Option DB) :
    ((c = none ∨ db = none ∨
        (∃ ctx, c = some ctx ∧ ∀ m, ctx.accessMetadata ≠ some (ContextValue.stringMap m)) ∨
        (∃ ctx m, c = some ctx ∧ ctx.accessMetadata = some (ContextValue.stringMap m) ∧
          (TrimSpace (metaGet m "user_id") = "" ∨
            ParseUint (TrimSpace (metaGet m "user_id")) = none ∨
            ParseUint (TrimSpace (metaGet m "user_id")) = some 0 ∨
            ∃ d n, db = some d ∧ ParseUint (TrimSpace (metaGet m "user_id")) = some n ∧
              d.firstUser n = none))) →
      loadUserGroupMembership c db = ⟨none, none, false⟩) ∧
    ((loadUserGroupMembership c db).ok = false →
      loadUserGroupMembership c db = ⟨none, none, false⟩) ∧
    ((loadUserGroupMembership c db).ok = true →
      ∃ ctx d m n user, c = some ctx ∧ db = some d ∧
        ctx.accessMetadata = some (ContextValue.stringMap m) ∧
        ParseUint (TrimSpace (metaGet m "user_id")) = some n ∧ n ≠ 0 ∧
        d.firstUser n = some user ∧
        loadUserGroupMembership c db =
          ⟨some (Clean user.UserGroupID), some (Clean user.BillUserGroupID), true⟩) ∧
    (∀ ctx d m n user, c = some ctx → db = some d →
      ctx.accessMetadata = some (ContextValue.stringMap m) →
      ParseUint (TrimSpace (metaGet m "user_id")) = some n → n ≠ 0 →
      d.firstUser n = some user →
      loadUserGroupMembership c db =
        ⟨some (Clean user.UserGroupID), some (Clean user.BillUserGroupID), true⟩) := by
  have hblank := ParseUint_empty
  have hpos := loadUserGroupMembership_found c db
  have hcases := loadUserGroupMembership_cases c db
  refine ⟨?_, ?_, ?_, ?_⟩
  · intro hfail
    rcases hcases with h | ⟨ctx, d, m, n, user, hc, hd, hm, hp, hn, hu⟩
    · exact h
    · exfalso
      rcases hfail with h | h | ⟨ctx2, hc2, hno⟩ | ⟨ctx2, m2, hc2, hm2, hrest⟩
      · rw [hc] at h; cases h
      · rw [hd] at h; cases h
      · rw [hc] at hc2
        cases hc2
        exact hno m hm
      · rw [hc] at hc2
        cases hc2
        rw [hm] at hm2
        cases hm2
        rcases hrest with h | h | h | ⟨d2, n2, hd2, hp2, hu2⟩
        · rw [h, hblank] at hp; cases hp
        · rw [h] at hp; cases hp
        · rw [h] at hp; cases hp; exact hn rfl
        · rw [hd] at hd2
          cases hd2
          rw [hp] at hp2
          cases hp2
          rw [hu] at hu2
          cases hu2
  · intro hok
    rcases hcases with h | ⟨ctx, d, m, n, user, hc, hd, hm, hp, hn, hu⟩
    · exact h
    · rw [hpos ctx d m n user hc hd hm hp hn hu] at hok
      cases hok
  · intro hok
    rcases hcases with h | ⟨ctx, d, m, n, user, hc, hd, hm, hp, hn, hu⟩
    · rw [h] at hok
      cases hok
    · exact ⟨ctx, d, m, n, user, hc, hd, hm, hp, hn, hu, hpos ctx d m n user hc hd hm hp hn hu⟩
  · intro ctx d m n user hc hd hm hp hn hu
    exact hpos ctx d m n user hc hd hm hp hn hu

theorem openAIRegistryLoop_unresolved_ids (lookup : PolicyLookup)
    (userGroups billUserGroups : UserGroupIDs) (src : List AnyMap) :
    (openAIRegistryLoop lookup false userGroups billUserGroups src).map
        (fun m => mapGet m "id") = src.map (fun m => mapGet m "id") := by
  induction src with
  | nil => simp [openAIRegistryLoop]
  | cons h r ih =>
    simp only [openAIRegistryLoop, Bool.false_eq_true, false_and, if_false, List.map_cons, ih]
    congr 1

theorem openAIRegistryLoop_unresolved_lookup (lookup lookup2 : PolicyLookup)
    (userGroups billUserGroups : UserGroupIDs) (src : List AnyMap) :
    openAIRegistryLoop lookup2 false userGroups billUserGroups src =
      openAIRegistryLoop lookup false userGroups billUserGroups src := by
  induction src with
  | nil => simp [openAIRegistryLoop]
  | cons h r ih =>
    simp only [openAIRegistryLoop, Bool.false_eq_true, false_and, if_false, ih]

theorem convertLoop_map_some (handlerType : String) (infos : List (Option ModelInfo)) :
    (convertLoop handlerType infos).map some =
      (infos.filterMap id).map (fun i => convertModelToMap (some i) handlerType) := by
  induction infos with
  | nil => simp [convertLoop]
  | cons h r ih =>
    cases h with
    | none => simpa [convertLoop, convertModelToMap] using ih
    | some info =>
      cases hc : convertModelToMap (some info) handlerType with
      | none =>
        exfalso
        unfold convertModelToMap at hc
        split_ifs at hc
      | some m =>
        simp only [convertLoop, hc, List.map_cons, ih, List.filterMap_cons, id]

theorem convertLoop_claude_ids (infos : List (Option ModelInfo)) :
    (convertLoop "claude" infos).map (fun m => mapGet m "id") =
      (infos.filterMap id).map (fun i => AnyValue.str i.ID) := by
  induction infos with
  | nil => simp [convertLoop]
  | cons h r ih =>
    cases h with
    | none => simpa [convertLoop, convertModelToMap] using ih
    | some info =>
      have hhead : ∀ tl : AnyMap,
          mapGet (("id", AnyValue.str info.ID) :: tl) "id" = AnyValue.str info.ID := by
        intro tl
        simp [mapGet, List.lookup]
      simp only [convertLoop, convertModelToMap, List.map_cons, List.filterMap_cons, id]
      simp [hhead, ih]

theorem openAIMappedLoop_ids (infos : List (Option ModelInfo))
    (hid : ∀ info, some info ∈ infos → TrimSpace info.ID ≠ "") :
    (openAIMappedLoop infos).map (fun m => mapGet m "id") =
      (infos.filterMap id).map (fun i => AnyValue.str i.ID) := by
  induction infos with
  | nil => simp [openAIMappedLoop]
  | cons h r ih =>
    have ih2 := ih (fun info hm => hid info (List.mem_cons_of_mem _ hm))
    cases h with
    | none => simpa [openAIMappedLoop] using ih2
    | some info =>
      have hne := hid info (List.mem_cons_self _ _)
      have hhead : ∀ tl : AnyMap,
          mapGet (("id", AnyValue.str info.ID) :: tl) "id" = AnyValue.str info.ID := by
        intro tl
        simp [mapGet, List.lookup]
      simp only [openAIMappedLoop, hne, if_false, List.map_cons, List.filterMap_cons, id, ih2]
      simp [hhead]

/-- C9: for a GET request whose membership resolution returns ok=false, the middleware applies no
group filtering on any branch. Its outcome does not depend on the policy store, and the models
of the response are those of the whole source list, one per model and in order: the registry
list itself (claude-cli), its ids (OpenAI), its normalised maps (Gemini), or, with
ONLY_MAPPED_MODELS on, the shaped non-nil mapped models (for the OpenAI shape the mapped models
have non-blank ids, as `listMappedModelInfos` produces them). -/
theorem middleware_unresolved_membership_no_group_filtering
    (toLower : String → String) (lookup : PolicyLookup) (onlyMapped : Bool)
    (registry : String → List AnyMap) (mapped : Option (List (Option ModelInfo)))
    (db : Option DB) (ctx : GinContext) (req : Request) (url : URL)
    (hreq : ctx.Request = some req) (hurl : req.URL = some url) (hget : req.Method = "GET")
    (hok : (loadUserGroupMembership (some ctx) db).ok = false) :
    (∀ lookup2 : PolicyLookup,
      CLIProxyModelsMiddleware toLower lookup2 onlyMapped registry mapped db (some ctx) =
        CLIProxyModelsMiddleware toLower lookup onlyMapped registry mapped db (some ctx)) ∧
    (normalizeRequestPath url.Path = "/v1/models" → HasPrefix req.UserAgent "claude-cli" = true →
      onlyMapped = false →
      CLIProxyModelsMiddleware toLower lookup onlyMapped registry mapped db (some ctx) =
        Outcome.abortWithStatusJSON 200 (Body.data (registry "claude"))) ∧
    (normalizeRequestPath url.Path = "/v1/models" → HasPrefix req.UserAgent "claude-cli" = true →
      onlyMapped = true → ∀ infos, mapped = some infos →
      ∃ data,
        CLIProxyModelsMiddleware toLower lookup onlyMapped registry mapped db (some ctx) =
          Outcome.abortWithStatusJSON 200 (Body.data data) ∧
        data.map (fun m => mapGet m "id") =
          (infos.filterMap id).map (fun i => AnyValue.str i.ID)) ∧
    (normalizeRequestPath url.Path = "/v1/models" → HasPrefix req.UserAgent "claude-cli" = false →
      onlyMapped = false →
      ∃ data,
        CLIProxyModelsMiddleware toLower lookup onlyMapped registry mapped db (some ctx) =
          Outcome.abortWithStatusJSON 200 (Body.list data) ∧
        data.map (fun m => mapGet m "id") = (registry "openai").map (fun m => mapGet m "id")) ∧
    (normalizeRequestPath url.Path = "/v1/models" → HasPrefix req.UserAgent "claude-cli" = false →
      onlyMapped = true → ∀ infos, mapped = some infos →
      (∀ info, some info ∈ infos → TrimSpace info.ID ≠ "") →
      ∃ data,
        CLIProxyModelsMiddleware toLower lookup onlyMapped registry mapped db (some ctx) =
          Outcome.abortWithStatusJSON 200 (Body.list data) ∧
        data.map (fun m => mapGet m "id") =
          (infos.filterMap id).map (fun i => AnyValue.str i.ID)) ∧
    (normalizeRequestPath url.Path = "/v1beta/models" → onlyMapped = false →
      CLIProxyModelsMiddleware toLower lookup onlyMapped registry mapped db (some ctx) =
        Outcome.abortWithStatusJSON 200
          (Body.models ((registry "gemini").map normalizeGeminiModel))) ∧
    (normalizeRequestPath url.Path = "/v1beta/models" → onlyMapped = true →
      ∀ infos, mapped = some infos →
      ∃ models,
        CLIProxyModelsMiddleware toLower lookup onlyMapped registry mapped db (some ctx) =
          Outcome.abortWithStatusJSON 200 (Body.models models) ∧
        models.map some = (infos.filterMap id).map
          (fun i => (convertModelToMap (some i) "gemini").map normalizeGeminiModel)) := by
  have hne : ("/v1beta/models" : String) ≠ "/v1/models" := by decide
  refine ⟨?_, ?_, ?_, ?_, ?_, ?_, ?_⟩
  · intro lookup2
    simp only [CLIProxyModelsMiddleware, hreq, hurl, hget, hok, Bool.false_eq_true, if_false,
      openAIRegistryLoop_unresolved_lookup lookup lookup2]
  · intro hpath hua hom
    simp [CLIProxyModelsMiddleware, hreq, hurl, hget, hok, hpath, hua, hom]
  · intro hpath hua hom infos hmapped
    refine ⟨convertLoop "claude" infos, ?_, convertLoop_claude_ids infos⟩
    simp [CLIProxyModelsMiddleware, hreq, hurl, hget, hok, hpath, hua, hom, hmapped]
  · intro hpath hua hom
    refine ⟨openAIRegistryLoop lookup false
      (sliceOf (loadUserGroupMembership (some ctx) db).userGroups)
      (sliceOf (loadUserGroupMembership (some ctx) db).billUserGroups) (registry "openai"), ?_,
      openAIRegistryLoop_unresolved_ids lookup _ _ _⟩
    simp [CLIProxyModelsMiddleware, hreq, hurl, hget, hok, hpath, hua, hom]
  · intro hpath hua hom infos hmapped hids
    refine ⟨openAIMappedLoop infos, ?_, openAIMappedLoop_ids infos hids⟩
    simp [CLIProxyModelsMiddleware, hreq, hurl, hget, hok, hpath, hua, hom, hmapped]
  · intro hpath hom
    simp [CLIProxyModelsMiddleware, hreq, hurl, hget, hok, hpath, hom, hne]
  · intro hpath hom infos hmapped
    refine ⟨(convertLoop "gemini" infos).map normalizeGeminiModel, ?_, ?_⟩
    · simp [CLIProxyModelsMiddleware, hreq, hurl, hget, hok, hpath, hom, hmapped, hne]
    · have h := convertLoop_map_some "gemini" infos
      have h2 := congrArg (List.map (Option.map normalizeGeminiModel)) h
      simpa [List.map_map, Function.comp] using h2

/-- C9, witness: an anonymous GET of the model list is answered with every registry model, here
gpt-4, although the policy store restricts that model to user group 2. -/
theorem middleware_unresolved_membership_no_group_filtering_witness :
    ∃ data,
      CLIProxyModelsMiddleware String.toLower testSelectorModelRestricted.lookup false
          exampleRegistry none none (some anonymousModelsRequest) =
        Outcome.abortWithStatusJSON 200 (Body.list data) ∧
      data.map (fun m => mapGet m "id") =
        (exampleRegistry "openai").map (fun m => mapGet m "id") :=
  (middleware_unresolved_membership_no_group_filtering String.toLower
    testSelectorModelRestricted.lookup false exampleRegistry none none anonymousModelsRequest
    ⟨"GET", some ⟨"/v1/models/"⟩, "curl/8.0"⟩ ⟨"/v1/models/"⟩ rfl rfl rfl rfl).2.2.2.1
    (by decide) (by decide) rfl

theorem hasAnyAllowedUserGroup_false_iff (allowed userGroups billUserGroups : UserGroupIDs) :
    hasAnyAllowedUserGroup allowed userGroups billUserGroups = false ↔
      (∃ v : Nat, v ≠ 0 ∧ some v ∈ allowed) ∧
      ¬ ∃ v : Nat, v ≠ 0 ∧ some v ∈ allowed ∧
        (some v ∈ userGroups ∨ some v ∈ billUserGroups) := by
  have h := hasAnyAllowedUserGroup_or allowed userGroups billUserGroups
  constructor
  · intro hf
    have hn : ¬ hasAnyAllowedUserGroup allowed userGroups billUserGroups = true := by
      rw [hf]; exact Bool.false_ne_true
    rw [h, not_or, not_not] at hn
    exact hn
  · rintro ⟨hex, hno⟩
    cases hb : hasAnyAllowedUserGroup allowed userGroups billUserGroups with
    | false => rfl
    | true =>
      rcases h.1 hb with h1 | h1
      · exact absurd hex h1
      · exact absurd h1 hno

theorem Pick_ok_inv (s : Selector) (rl : RateLimiter) (c : Option GinContext)
    (provider model : String) (candidates : List Auth) (cred : Auth)
    (hres : (Pick s rl c provider model candidates).result = Except.ok cred) :
    (∃ rl2, pickLoop s (loadUserGroupMembership c s.db).ok
        (sliceOf (loadUserGroupMembership c s.db).userGroups)
        (sliceOf (loadUserGroupMembership c s.db).billUserGroups) candidates rl =
          some (cred, rl2)) ∧
    (Pick s rl c provider model candidates).ctx =
      writeBillingScope c (billingScope (RestrictionFor s cred)
        (sliceOf (loadUserGroupMembership c s.db).userGroups)
        (sliceOf (loadUserGroupMembership c s.db).billUserGroups)) := by
  unfold Pick at hres ⊢
  by_cases hden : (loadUserGroupMembership c s.db).ok = true ∧
      (s.lookup provider model).2 = true ∧
      hasAnyAllowedUserGroup (s.lookup provider model).1
        (sliceOf (loadUserGroupMembership c s.db).userGroups)
        (sliceOf (loadUserGroupMembership c s.db).billUserGroups) = false
  · simp only [hden, and_self, if_true] at hres
    cases hres
  · simp only [hden, if_false] at hres ⊢
    cases hp : pickLoop s (loadUserGroupMembership c s.db).ok
        (sliceOf (loadUserGroupMembership c s.db).userGroups)
        (sliceOf (loadUserGroupMembership c s.db).billUserGroups) candidates rl with
    | none =>
      rw [hp] at hres
      cases hres
    | some pr =>
      obtain ⟨cr, rl2⟩ := pr
      rw [hp] at hres
      simp only at hres
      cases hres
      exact ⟨⟨rl2, rfl⟩, rfl⟩

theorem not_RestrictionAdmits_iff (m : Membership) (restriction : UserGroupIDs) :
    ¬ RestrictionAdmits m restriction ↔
      m.ok = true ∧
        hasAnyAllowedUserGroup restriction (sliceOf m.userGroups) (sliceOf m.billUserGroups)
          = false := by
  rw [hasAnyAllowedUserGroup_false_iff]
  unfold RestrictionAdmits CallerHasGroup
  constructor
  · intro h
    rw [not_or, not_not] at h
    obtain ⟨hne, hno⟩ := h
    refine ⟨?_, hne, ?_⟩
    · cases hok : m.ok with
      | true => rfl
      | false =>
        obtain ⟨v, h0, hv⟩ := hne
        exact absurd ⟨v, h0, hv, Or.inl hok⟩ hno
    · rintro ⟨v, h0, hv, hAB⟩
      exact hno ⟨v, h0, hv, Or.inr hAB⟩
  · rintro ⟨hok, hne, hno⟩ h
    rcases h with h | ⟨v, h0, hv, h | h⟩
    · exact h hne
    · rw [hok] at h
      cases h
    · exact hno ⟨v, h0, hv, h⟩

theorem RestrictionAdmits_iff (m : Membership) (restriction : UserGroupIDs) :
    RestrictionAdmits m restriction ↔
      ¬ (m.ok = true ∧
        hasAnyAllowedUserGroup restriction (sliceOf m.userGroups) (sliceOf m.billUserGroups)
          = false) := by
  rw [← not_RestrictionAdmits_iff, not_not]

theorem RestrictionAdmits_of_unresolved (m : Membership) (restriction : UserGroupIDs)
    (hok : m.ok = false) : RestrictionAdmits m restriction := by
  rw [RestrictionAdmits_iff, hok]
  rintro ⟨h, _⟩
  cases h

theorem firstMatching_sound (ids : List Nat) (restriction : UserGroupIDs) (g : Nat)
    (h : firstMatching ids restriction = some g) :
    g ∈ ids ∧ g ≠ 0 ∧ some g ∈ restriction := by
  unfold firstMatching at h
  have hp := List.find?_some h
  have hm := List.mem_of_find?_eq_some h
  simp only [decide_eq_true_eq] at hp
  exact ⟨hm, (mem_Clean restriction g).1 hp⟩

theorem firstMatching_none (ids : List Nat) (restriction : UserGroupIDs)
    (h : firstMatching ids restriction = none) (g : Nat) (hg : g ∈ ids) (h0 : g ≠ 0) :
    some g ∉ restriction := by
  unfold firstMatching at h
  rw [List.find?_eq_none] at h
  have := h g hg
  simp only [decide_eq_true_eq] at this
  intro hr
  exact this ((mem_Clean restriction g).2 ⟨h0, hr⟩)

theorem billingScope_unique (restriction userGroups billUserGroups : UserGroupIDs) (g : Nat)
    (h0 : g ≠ 0) (hR : some g ∈ restriction)
    (hAB : some g ∈ userGroups ∨ some g ∈ billUserGroups)
    (huniq : ∀ g2 : Nat, g2 ≠ 0 → some g2 ∈ restriction →
      (some g2 ∈ userGroups ∨ some g2 ∈ billUserGroups) → g2 = g) :
    billingScope restriction userGroups billUserGroups = some g := by
  unfold billingScope
  cases hB : firstMatching (Values billUserGroups) restriction with
  | some g1 =>
    obtain ⟨hm, h1, hr⟩ := firstMatching_sound _ _ _ hB
    have := huniq g1 h1 hr (Or.inr ((mem_Values _ _).1 hm).2)
    rw [this]
  | none =>
    simp only
    have hA : some g ∈ userGroups := by
      rcases hAB with h | h
      · exact h
      · exact absurd hR (firstMatching_none _ _ hB g ((mem_Values _ _).2 ⟨h0, h⟩) h0)
    cases hA2 : firstMatching (Values userGroups) restriction with
    | some g1 =>
      obtain ⟨hm, h1, hr⟩ := firstMatching_sound _ _ _ hA2
      have := huniq g1 h1 hr (Or.inl ((mem_Values _ _).1 hm).2)
      rw [this]
    | none =>
      exact absurd hR (firstMatching_none _ _ hA2 g ((mem_Values _ _).2 ⟨h0, hA⟩) h0)

theorem billingScope_unrestricted (restriction userGroups billUserGroups : UserGroupIDs)
    (h : ¬ ∃ v : Nat, v ≠ 0 ∧ some v ∈ restriction) :
    billingScope restriction userGroups billUserGroups = none := by
  unfold billingScope
  cases hB : firstMatching (Values billUserGroups) restriction with
  | some g1 =>
    obtain ⟨_, h1, hr⟩ := firstMatching_sound _ _ _ hB
    exact absurd ⟨g1, h1, hr⟩ h
  | none =>
    simp only
    cases hA : firstMatching (Values userGroups) restriction with
    | some g1 =>
      obtain ⟨_, h1, hr⟩ := firstMatching_sound _ _ _ hA
      exact absurd ⟨g1, h1, hr⟩ h
    | none => rfl

theorem writeBillingScope_none (c : Option GinContext) : writeBillingScope c none = c := by
  cases c <;> rfl

theorem metaSet_lookup (m : List (String × String)) (key v : String) :
    (metaSet m key v).lookup key = some v := by
  simp [metaSet, List.lookup]

/-- C5: when `Pick` succeeds and the caller belongs to exactly one group that matches the
selected credential's credential-group restriction, the request's `accessMetadata` after the
call holds, under the key `billing_user_group_id`, that group's id as a base-10 string; when the
selected credential's restriction is empty, nothing is written and the context is left as it
was. -/
theorem Pick_writes_billing_group (s : Selector) (rl : RateLimiter) (c : Option GinContext)
    (provider model : String) (candidates : List Auth) (cred : Auth)
    (hres : (Pick s rl c provider model candidates).result = Except.ok cred) :
    (∀ g : Nat, g ≠ 0 → some g ∈ RestrictionFor s cred →
      (some g ∈ sliceOf (loadUserGroupMembership c s.db).userGroups ∨
        some g ∈ sliceOf (loadUserGroupMembership c s.db).billUserGroups) →
      (∀ g2 : Nat, g2 ≠ 0 → some g2 ∈ RestrictionFor s cred →
        (some g2 ∈ sliceOf (loadUserGroupMembership c s.db).userGroups ∨
          some g2 ∈ sliceOf (loadUserGroupMembership c s.db).billUserGroups) → g2 = g) →
      ∃ ctx m, (Pick s rl c provider model candidates).ctx = some ctx ∧
        ctx.accessMetadata = some (ContextValue.stringMap m) ∧
        m.lookup "billing_user_group_id" = some (FormatUint g) ∧
        metaGet m "billing_user_group_id" = FormatUint g) ∧
    ((¬ ∃ v : Nat, v ≠ 0 ∧ some v ∈ RestrictionFor s cred) →
      (Pick s rl c provider model candidates).ctx = c) := by
  obtain ⟨_, hctx⟩ := Pick_ok_inv s rl c provider model candidates cred hres
  constructor
  · intro g h0 hR hAB huniq
    rw [hctx, billingScope_unique _ _ _ g h0 hR hAB huniq]
    rcases loadUserGroupMembership_cases c s.db with hnone | ⟨ctx, d, m, n, user, hc, _, hm, _⟩
    · rw [hnone] at hAB
      rcases hAB with h | h <;> exact absurd h (List.not_mem_nil _)
    · refine ⟨⟨ctx.Request, some (ContextValue.stringMap
        (metaSet m "billing_user_group_id" (FormatUint g)))⟩, _, ?_, rfl,
        metaSet_lookup m _ _, ?_⟩
      · rw [hc]
        simp only [writeBillingScope, hm]
      · unfold metaGet
        rw [metaSet_lookup]
        rfl
  · intro hempty
    rw [hctx, billingScope_unrestricted _ _ _ hempty, writeBillingScope_none]

/-- C5, witness: in the scenario of `TestSelectorFiltersAuthsByAuthGroupUserGroupRestriction`
user 1 belongs to group 1 only, the selected credential is restricted to group 1, and the
metadata after the call hold the text 1 under `billing_user_group_id`. -/
theorem Pick_writes_billing_group_witness :
    ∃ ctx m, (Pick testSelectorAuthGroups ⟨[]⟩ (buildTestGinContext "/v1/chat/completions" 1)
        "openai" "gpt-4"
        [⟨"auth-denied", Status.active⟩, ⟨"auth-allowed", Status.active⟩]).ctx = some ctx ∧
      ctx.accessMetadata = some (ContextValue.stringMap m) ∧
      m.lookup "billing_user_group_id" = some (FormatUint 1) ∧
      metaGet m "billing_user_group_id" = FormatUint 1 :=
  (Pick_writes_billing_group testSelectorAuthGroups ⟨[]⟩
    (buildTestGinContext "/v1/chat/completions" 1) "openai" "gpt-4"
    [⟨"auth-denied", Status.active⟩, ⟨"auth-allowed", Status.active⟩]
    ⟨"auth-allowed", Status.active⟩ (by rfl)).1 1 (by decide) (by decide) (Or.inl (by decide))
    (by
      intro g2 _ hR _
      have eR : RestrictionFor testSelectorAuthGroups ⟨"auth-allowed", Status.active⟩ =
          [some 1] := rfl
      rw [eR] at hR
      simpa using hR)

theorem earliestPeriodEnd_foldl_mem (l : List (Nat × Bill)) (best : Option (Nat × Bill))
    (x : Nat × Bill)
    (h : l.foldl
      (fun best x =>
        match best with
        | none => some x
        | some b => if x.2.PeriodEnd < b.2.PeriodEnd then some x else some b)
      best = some x) :
    best = some x ∨ x ∈ l := by
  induction l generalizing best with
  | nil => left; simpa using h
  | cons y r ih =>
    simp only [List.foldl_cons] at h
    rcases ih _ h with h1 | h1
    · cases best with
      | none =>
        simp only [Option.some.injEq] at h1
        right; rw [← h1]; exact List.mem_cons_self _ _
      | some b =>
        simp only at h1
        split_ifs at h1
        · simp only [Option.some.injEq] at h1
          right; rw [← h1]; exact List.mem_cons_self _ _
        · left; exact h1
    · right; exact List.mem_cons_of_mem _ h1

theorem earliestPeriodEnd_foldl_isSome (l : List (Nat × Bill)) (best : Option (Nat × Bill))
    (h : best ≠ none ∨ l ≠ []) :
    l.foldl
      (fun best x =>
        match best with
        | none => some x
        | some b => if x.2.PeriodEnd < b.2.PeriodEnd then some x else some b)
      best ≠ none := by
  induction l generalizing best with
  | nil =>
    rcases h with h | h
    · simpa using h
    · exact absurd rfl h
  | cons y r ih =>
    simp only [List.foldl_cons]
    apply ih
    left
    cases best with
    | none => simp
    | some b =>
      simp only
      split_ifs <;> simp

theorem earliestPeriodEnd_mem (l : List (Nat × Bill)) (x : Nat × Bill)
    (h : earliestPeriodEnd l = some x) : x ∈ l := by
  rcases earliestPeriodEnd_foldl_mem l none x h with h1 | h1
  · cases h1
  · exact h1

theorem earliestPeriodEnd_ne_none (l : List (Nat × Bill)) (h : l ≠ []) :
    earliestPeriodEnd l ≠ none :=
  earliestPeriodEnd_foldl_isSome l none (Or.inr h)

theorem earliestPeriodEnd_eq_none (l : List (Nat × Bill)) (h : earliestPeriodEnd l = none) :
    l = [] := by
  by_contra hne
  exact earliestPeriodEnd_ne_none l hne h

theorem mem_billCandidates (bills : List Bill) (userID : Nat) (groupID : Option Nat)
    (amount now : Int) (i : Nat) (r : Bill) :
    (i, r) ∈ bills.enum.filter
        (fun x => billMatches userID groupID now x.2 && decide (amount ≤ x.2.LeftQuota)) ↔
      bills[i]? = some r ∧ r.UserID = userID ∧ r.UserGroupID = groupID ∧
        r.PeriodStart ≤ now ∧ now ≤ r.PeriodEnd ∧ amount ≤ r.LeftQuota := by
  rw [List.mem_filter, List.mk_mem_enum_iff_getElem?]
  simp only [billMatches, Bool.and_eq_true, decide_eq_true_eq]
  constructor
  · rintro ⟨h, ⟨⟨⟨h1, h2⟩, h3⟩, h4⟩, h5⟩
    exact ⟨h, h1, h2, h3, h4, h5⟩
  · rintro ⟨h, h1, h2, h3, h4, h5⟩
    exact ⟨h, ⟨⟨⟨h1, h2⟩, h3⟩, h4⟩, h5⟩

/-- The two outcomes of `deductBillBalance`: either no record of the user with the requested
scope is valid now and covers the amount, and nothing is changed; or one such record is
decremented by the amount and nothing else is changed. -/
theorem deductBillBalance_cases (bills : List Bill) (userID : Nat) (groupID : Option Nat)
    (amount now : Int) :
    ((∀ (i : Nat) (r : Bill), bills[i]? = some r → r.UserID = userID →
        r.UserGroupID = groupID → r.PeriodStart ≤ now → now ≤ r.PeriodEnd →
        ¬ amount ≤ r.LeftQuota) ∧
      deductBillBalance bills userID groupID amount now = (false, bills)) ∨
    (∃ (i : Nat) (r : Bill), bills[i]? = some r ∧ r.UserID = userID ∧
      r.UserGroupID = groupID ∧ r.PeriodStart ≤ now ∧ now ≤ r.PeriodEnd ∧
      amount ≤ r.LeftQuota ∧
      deductBillBalance bills userID groupID amount now =
        (true, bills.set i { r with LeftQuota := r.LeftQuota - amount })) := by
  unfold deductBillBalance
  cases hsel : earliestPeriodEnd (bills.enum.filter
      (fun x => billMatches userID groupID now x.2 && decide (amount ≤ x.2.LeftQuota))) with
  | none =>
    left
    have hnil := earliestPeriodEnd_eq_none _ hsel
    refine ⟨?_, rfl⟩
    intro i r hi h1 h2 h3 h4 h5
    have hmem := (mem_billCandidates bills userID groupID amount now i r).2
      ⟨hi, h1, h2, h3, h4, h5⟩
    rw [hnil] at hmem
    exact List.not_mem_nil _ hmem
  | some p =>
    right
    obtain ⟨i, r⟩ := p
    have hmem := (mem_billCandidates bills userID groupID amount now i r).1
      (earliestPeriodEnd_mem _ _ hsel)
    exact ⟨i, r, hmem.1, hmem.2.1, hmem.2.2.1, hmem.2.2.2.1, hmem.2.2.2.2.1, hmem.2.2.2.2.2, rfl⟩

theorem getElem?_lt_length_of_some {α : Type} (l : List α) (i : Nat) (a : α)
    (h : l[i]? = some a) : i < l.length := by
  by_contra hge
  rw [List.getElem?_eq_none (Nat.le_of_not_lt hge)] at h
  cases h

/-- C6, as amended: for every store, user, group scope, amount and time of the call. When a
bill of the user with the requested scope is valid at the time of the call and has at least
`amount` left, and it is the only such bill (as when the user's bills differ in group scope),
`deductBillBalance` returns deducted=true, lowers the remaining quota of that bill by exactly
`amount`, not below zero, and leaves every other bill as it was. In every case a bill of
another scope, of another user, outside its validity period or with less than `amount` left is
left as it was; deducted is true exactly when some bill of the user with the requested scope is
valid and covers the amount; and when deducted is false no bill is changed. -/
theorem deductBillBalance_respects_group (bills : List Bill) (userID : Nat)
    (groupID : Option Nat) (amount now : Int) :
    (∀ (i : Nat) (r : Bill), bills[i]? = some r → r.UserID = userID →
      r.UserGroupID = groupID → r.PeriodStart ≤ now → now ≤ r.PeriodEnd →
      amount ≤ r.LeftQuota →
      (∀ (j : Nat) (r2 : Bill), bills[j]? = some r2 → r2.UserID = userID →
        r2.UserGroupID = groupID → r2.PeriodStart ≤ now → now ≤ r2.PeriodEnd →
        amount ≤ r2.LeftQuota → j = i) →
      (deductBillBalance bills userID groupID amount now).1 = true ∧
      (deductBillBalance bills userID groupID amount now).2 =
        bills.set i { r with LeftQuota := r.LeftQuota - amount } ∧
      (deductBillBalance bills userID groupID amount now).2[i]? =
        some { r with LeftQuota := r.LeftQuota - amount } ∧
      0 ≤ r.LeftQuota - amount ∧
      (∀ j : Nat, j ≠ i →
        (deductBillBalance bills userID groupID amount now).2[j]? = bills[j]?)) ∧
    (∀ (j : Nat) (r2 : Bill), bills[j]? = some r2 →
      (r2.UserGroupID ≠ groupID ∨ r2.UserID ≠ userID ∨ now < r2.PeriodStart ∨
        r2.PeriodEnd < now ∨ r2.LeftQuota < amount) →
      (deductBillBalance bills userID groupID amount now).2[j]? = some r2) ∧
    ((deductBillBalance bills userID groupID amount now).1 = true ↔
      ∃ (i : Nat) (r : Bill), bills[i]? = some r ∧ r.UserID = userID ∧
        r.UserGroupID = groupID ∧ r.PeriodStart ≤ now ∧ now ≤ r.PeriodEnd ∧
        amount ≤ r.LeftQuota) ∧
    ((deductBillBalance bills userID groupID amount now).1 = false →
      (deductBillBalance bills userID groupID amount now).2 = bills) ∧
    ((deductBillBalance bills userID groupID amount now).1 = true →
      ∃ (i : Nat) (r : Bill), bills[i]? = some r ∧ r.UserID = userID ∧
        r.UserGroupID = groupID ∧ r.PeriodStart ≤ now ∧ now ≤ r.PeriodEnd ∧
        amount ≤ r.LeftQuota ∧ 0 ≤ r.LeftQuota - amount ∧
        (deductBillBalance bills userID groupID amount now).2 =
          bills.set i { r with LeftQuota := r.LeftQuota - amount }) := by
  rcases deductBillBalance_cases bills userID groupID amount now with
    ⟨hnone, hres⟩ | ⟨i0, r0, hi0, hu0, hs0, hp0, hq0, ha0, hres⟩
  · rw [hres]
    refine ⟨?_, ?_, ?_, ?_, ?_⟩
    · intro i r hi h1 h2 h3 h4 h5 _
      exact absurd h5 (hnone i r hi h1 h2 h3 h4)
    · intro j r2 hj _
      exact hj
    · constructor
      · intro h
        cases h
      · rintro ⟨i, r, hi, h1, h2, h3, h4, h5⟩
        exact absurd h5 (hnone i r hi h1 h2 h3 h4)
    · intro _
      rfl
    · intro h
      cases h
  · rw [hres]
    have hlt := getElem?_lt_length_of_some bills i0 r0 hi0
    refine ⟨?_, ?_, ?_, ?_, ?_⟩
    · intro i r hi h1 h2 h3 h4 h5 honly
      have hii : i0 = i := honly i0 r0 hi0 hu0 hs0 hp0 hq0 ha0
      subst hii
      rw [hi0] at hi
      cases hi
      refine ⟨rfl, rfl, List.getElem?_set_self hlt, by omega, ?_⟩
      intro j hj
      exact List.getElem?_set_ne (Ne.symm hj)
    · intro j r2 hj hnot
      have hne : i0 ≠ j := by
        intro e
        rw [← e, hi0] at hj
        cases hj
        rcases hnot with h | h | h | h | h
        · exact h hs0
        · exact h hu0
        · omega
        · omega
        · omega
      simp only
      rw [List.getElem?_set_ne hne]
      exact hj
    · exact ⟨fun _ => ⟨i0, r0, hi0, hu0, hs0, hp0, hq0, ha0⟩, fun _ => rfl⟩
    · intro h
      cases h
    · intro _
      exact ⟨i0, r0, hi0, hu0, hs0, hp0, hq0, ha0, by omega, rfl⟩

/-- C6, witness: the scenario of `TestDeductBillBalanceRespectsUserGroupID`: two bills with
quota 10 scoped to groups 1 and 2; deducting 5 for group 1 leaves 5 and 10. -/
theorem deductBillBalance_respects_group_witness :
    (deductBillBalance testBills 1 (some 1) 5 0).1 = true ∧
    (deductBillBalance testBills 1 (some 1) 5 0).2 =
      [⟨1, 1, some 1, -3600, 3600, 5⟩, ⟨2, 1, some 2, -3600, 3600, 10⟩] :=
  have h := (deductBillBalance_respects_group testBills 1 (some 1) 5 0).1 0
    ⟨1, 1, some 1, -3600, 3600, 10⟩
    (by decide) (by decide) (by decide) (by decide) (by decide) (by decide)
    (by
      intro j r2 hj _ hs _ _ _
      match j, hj with
      | 0, _ => rfl
      | 1, hj =>
        have e : r2 = ⟨2, 1, some 2, -3600, 3600, 10⟩ := by
          simpa [testBills] using hj.symm
        rw [e] at hs
        exact absurd hs (by decide)
      | (n + 2), hj =>
        simp [testBills] at hj)
  ⟨h.1, h.2.1.trans (by decide)⟩

/-- C6, counterexample: the claim as stated, which does not ask the bills to be valid at the
time of the call, fails. The two bills of the test, looked at an hour after their period has
ended, differ only in group scope and the bill scoped to group 1 has 10 left, yet deducting 5
for group 1 returns deducted=false and changes nothing. -/
theorem deductBillBalance_expired_not_deducted :
    (¬ ∀ (bills : List Bill) (userID g : Nat) (amount now : Int) (i : Nat) (r : Bill),
      bills[i]? = some r → r.UserID = userID → r.UserGroupID = some g →
      (∀ (j : Nat) (r2 : Bill), bills[j]? = some r2 → r2.UserID = userID →
        r2.UserGroupID = some g → j = i) →
      amount ≤ r.LeftQuota →
      (deductBillBalance bills userID (some g) amount now).1 = true ∧
      (deductBillBalance bills userID (some g) amount now).2[i]? =
        some { r with LeftQuota := r.LeftQuota - amount }) ∧
    deductBillBalance testBills 1 (some 1) 5 7200 = (false, testBills) := by
  have heval : deductBillBalance testBills 1 (some 1) 5 7200 = (false, testBills) := by decide
  refine ⟨?_, heval⟩
  intro hall
  have h := (hall testBills 1 1 5 7200 0 ⟨1, 1, some 1, -3600, 3600, 10⟩
    (by decide) (by decide) (by decide)
    (by
      intro j r2 hj _ hs
      match j, hj with
      | 0, _ => rfl
      | 1, hj =>
        have e : r2 = ⟨2, 1, some 2, -3600, 3600, 10⟩ := by
          simpa [testBills] using hj.symm
        rw [e] at hs
        exact absurd hs (by decide)
      | (n + 2), hj =>
        simp [testBills] at hj)
    (by decide)).1
  rw [heval] at h
  cases h

theorem mem_cardCandidates (cards : List PrepaidCard) (userID : Nat) (groupID : Option Nat)
    (amount : Int) (i : Nat) (card : PrepaidCard) :
    (i, card) ∈ cards.enum.filter
        (fun x => cardMatches userID groupID x.2 && decide (amount ≤ x.2.Balance)) ↔
      cards[i]? = some card ∧ card.RedeemedUserID = some userID ∧
        card.UserGroupID = groupID ∧ amount ≤ card.Balance := by
  rw [List.mem_filter, List.mk_mem_enum_iff_getElem?]
  simp only [cardMatches, Bool.and_eq_true, decide_eq_true_eq]
  constructor
  · rintro ⟨h, ⟨h1, h2⟩, h3⟩
    exact ⟨h, h1, h2, h3⟩
  · rintro ⟨h, h1, h2, h3⟩
    exact ⟨h, ⟨h1, h2⟩, h3⟩

/-- The two outcomes of `deductPrepaidBalance`: either no card redeemed by the user with the
requested scope covers the amount, the call fails and nothing is changed; or one such card is
decremented by the amount and nothing else is changed. -/
theorem deductPrepaidBalance_cases (cards : List PrepaidCard) (userID : Nat)
    (groupID : Option Nat) (amount : Int) :
    ((∀ (i : Nat) (card : PrepaidCard), cards[i]? = some card →
        card.RedeemedUserID = some userID → card.UserGroupID = groupID →
        ¬ amount ≤ card.Balance) ∧
      deductPrepaidBalance cards userID groupID amount =
        (some DeductError.insufficientFunds, cards)) ∨
    (∃ (i : Nat) (card : PrepaidCard), cards[i]? = some card ∧
      card.RedeemedUserID = some userID ∧ card.UserGroupID = groupID ∧
      amount ≤ card.Balance ∧
      deductPrepaidBalance cards userID groupID amount =
        (none, cards.set i { card with Balance := card.Balance - amount })) := by
  unfold deductPrepaidBalance
  cases hsel : (cards.enum.filter
      (fun x => cardMatches userID groupID x.2 && decide (amount ≤ x.2.Balance))).head? with
  | none =>
    left
    rw [List.head?_eq_none_iff] at hsel
    refine ⟨?_, rfl⟩
    intro i card hi h1 h2 h3
    have hmem := (mem_cardCandidates cards userID groupID amount i card).2 ⟨hi, h1, h2, h3⟩
    rw [hsel] at hmem
    exact List.not_mem_nil _ hmem
  | some p =>
    right
    obtain ⟨i, card⟩ := p
    have hmem := (mem_cardCandidates cards userID groupID amount i card).1
      (List.mem_of_mem_head? hsel)
    exact ⟨i, card, hmem.1, hmem.2.1, hmem.2.2.1, hmem.2.2.2, rfl⟩

/-- C7: for every store, user, group scope and amount. When a card redeemed by the user with
the requested scope has a balance of at least `amount`, and it is the only such card (as when
the user's cards differ in group scope), `deductPrepaidBalance` succeeds, lowers the balance of
that card by exactly `amount`, not below zero, and leaves every other card as it was. In every
case a card of another scope, redeemed by another user or by nobody, or with a balance below
`amount` is left as it was; the call succeeds exactly when some card redeemed by the user with
the requested scope covers the amount; and when it fails no card is changed. -/
theorem deductPrepaidBalance_respects_group (cards : List PrepaidCard) (userID : Nat)
    (groupID : Option Nat) (amount : Int) :
    (∀ (i : Nat) (card : PrepaidCard), cards[i]? = some card →
      card.RedeemedUserID = some userID → card.UserGroupID = groupID →
      amount ≤ card.Balance →
      (∀ (j : Nat) (c2 : PrepaidCard), cards[j]? = some c2 →
        c2.RedeemedUserID = some userID → c2.UserGroupID = groupID →
        amount ≤ c2.Balance → j = i) →
      (deductPrepaidBalance cards userID groupID amount).1 = none ∧
      (deductPrepaidBalance cards userID groupID amount).2 =
        cards.set i { card with Balance := card.Balance - amount } ∧
      (deductPrepaidBalance cards userID groupID amount).2[i]? =
        some { card with Balance := card.Balance - amount } ∧
      0 ≤ card.Balance - amount ∧
      (∀ j : Nat, j ≠ i →
        (deductPrepaidBalance cards userID groupID amount).2[j]? = cards[j]?)) ∧
    (∀ (j : Nat) (c2 : PrepaidCard), cards[j]? = some c2 →
      (c2.UserGroupID ≠ groupID ∨ c2.RedeemedUserID ≠ some userID ∨ c2.Balance < amount) →
      (deductPrepaidBalance cards userID groupID amount).2[j]? = some c2) ∧
    ((deductPrepaidBalance cards userID groupID amount).1 = none ↔
      ∃ (i : Nat) (card : PrepaidCard), cards[i]? = some card ∧
        card.RedeemedUserID = some userID ∧ card.UserGroupID = groupID ∧
        amount ≤ card.Balance) ∧
    ((deductPrepaidBalance cards userID groupID amount).1 ≠ none →
      (deductPrepaidBalance cards userID groupID amount).1 =
        some DeductError.insufficientFunds ∧
      (deductPrepaidBalance cards userID groupID amount).2 = cards) ∧
    ((deductPrepaidBalance cards userID groupID amount).1 = none →
      ∃ (i : Nat) (card : PrepaidCard), cards[i]? = some card ∧
        card.RedeemedUserID = some userID ∧ card.UserGroupID = groupID ∧
        amount ≤ card.Balance ∧ 0 ≤ card.Balance - amount ∧
        (deductPrepaidBalance cards userID groupID amount).2 =
          cards.set i { card with Balance := card.Balance - amount }) := by
  rcases deductPrepaidBalance_cases cards userID groupID amount with
    ⟨hnone, hres⟩ | ⟨i0, c0, hi0, hu0, hs0, ha0, hres⟩
  · rw [hres]
    refine ⟨?_, ?_, ?_, ?_, ?_⟩
    · intro i card hi h1 h2 h3 _
      exact absurd h3 (hnone i card hi h1 h2)
    · intro j c2 hj _
      exact hj
    · constructor
      · intro h
        cases h
      · rintro ⟨i, card, hi, h1, h2, h3⟩
        exact absurd h3 (hnone i card hi h1 h2)
    · intro _
      exact ⟨rfl, rfl⟩
    · intro h
      cases h
  · rw [hres]
    have hlt := getElem?_lt_length_of_some cards i0 c0 hi0
    refine ⟨?_, ?_, ?_, ?_, ?_⟩
    · intro i card hi h1 h2 h3 honly
      have hii : i0 = i := honly i0 c0 hi0 hu0 hs0 ha0
      subst hii
      rw [hi0] at hi
      cases hi
      refine ⟨rfl, rfl, List.getElem?_set_self hlt, by omega, ?_⟩
      intro j hj
      exact List.getElem?_set_ne (Ne.symm hj)
    · intro j c2 hj hnot
      have hne : i0 ≠ j := by
        intro e
        rw [← e, hi0] at hj
        cases hj
        rcases hnot with h | h | h
        · exact h hs0
        · exact h hu0
        · omega
      simp only
      rw [List.getElem?_set_ne hne]
      exact hj
    · exact ⟨fun _ => ⟨i0, c0, hi0, hu0, hs0, ha0⟩, fun _ => rfl⟩
    · intro h
      exact absurd rfl h
    · intro _
      exact ⟨i0, c0, hi0, hu0, hs0, ha0, by omega, rfl⟩

/-- C7, witness: the scenario of `TestDeductPrepaidBalanceRespectsUserGroupID`: two cards with
balance 10 scoped to groups 1 and 2; deducting 5 for group 1 leaves 5 and 10. -/
theorem deductPrepaidBalance_respects_group_witness :
    (deductPrepaidBalance testCards 1 (some 1) 5).1 = none ∧
    (deductPrepaidBalance testCards 1 (some 1) 5).2 =
      [⟨1, some 1, some 1, 5⟩, ⟨2, some 1, some 2, 10⟩] :=
  have h := (deductPrepaidBalance_respects_group testCards 1 (some 1) 5).1 0
    ⟨1, some 1, some 1, 10⟩
    (by decide) (by decide) (by decide) (by decide)
    (by
      intro j c2 hj _ hs _
      match j, hj with
      | 0, _ => rfl
      | 1, hj =>
        have e : c2 = ⟨2, some 1, some 2, 10⟩ := by
          simpa [testCards] using hj.symm
        rw [e] at hs
        exact absurd hs (by decide)
      | (n + 2), hj =>
        simp [testCards] at hj)
  ⟨h.1, h.2.1.trans (by decide)⟩

theorem indexOf_map_some (l : List Nat) (x : Nat) :
    List.indexOf (some x) (l.map some) = List.indexOf x l := by
  induction l with
  | nil => rfl
  | cons h r ih =>
    by_cases e : h = x
    · subst e
      simp [List.indexOf_cons]
    · have e2 : some h ≠ some x := fun hh => e (Option.some.inj hh)
      rw [List.map_cons, indexOf_head_ne _ _ _ e2, ih]
      simp [List.indexOf_cons, e]

theorem nodup_Values (ids : UserGroupIDs) : (Values ids).Nodup := by
  have h : ((Values ids).map some).Nodup := by
    rw [Values_map_some, Clean_eq_cleanLoop]
    exact nodup_cleanLoop ids []
  exact List.Nodup.of_map _ h

theorem indexOf_Values (ids : UserGroupIDs) (x y : Nat)
    (hx : x ∈ Values ids) (hy : y ∈ Values ids) :
    (List.indexOf x (Values ids) < List.indexOf y (Values ids) ↔
      List.indexOf (some x) ids < List.indexOf (some y) ids) := by
  have hx2 : some x ∈ cleanLoop ids [] [] := by
    rw [← Clean_eq_cleanLoop, ← Values_map_some]
    exact List.mem_map_of_mem _ hx
  have hy2 : some y ∈ cleanLoop ids [] [] := by
    rw [← Clean_eq_cleanLoop, ← Values_map_some]
    exact List.mem_map_of_mem _ hy
  have h := indexOf_cleanLoop ids [] (some x) (some y) hx2 hy2
  rw [← Clean_eq_cleanLoop, ← Values_map_some, indexOf_map_some, indexOf_map_some] at h
  exact h

/-- C11: `Values ids` is the list of the non-zero ids of `ids`, each once, in order of first
occurrence, and it equals the list of ids pointed to by `Clean ids`, element for element. -/
theorem Values_spec (ids : UserGroupIDs) :
    (Values ids).Nodup ∧
    (∀ v : Nat, v ∈ Values ids ↔ v ≠ 0 ∧ some v ∈ ids) ∧
    (∀ x y : Nat, x ∈ Values ids → y ∈ Values ids →
      (List.indexOf x (Values ids) < List.indexOf y (Values ids) ↔
        List.indexOf (some x) ids < List.indexOf (some y) ids)) ∧
    (Values ids).map some = Clean ids ∧
    (Values ids).length = (Clean ids).length ∧
    (∀ i : Nat, (Clean ids)[i]? = ((Values ids)[i]?).map some) := by
  refine ⟨nodup_Values ids, mem_Values ids, indexOf_Values ids, Values_map_some ids, ?_, ?_⟩
  · rw [← Values_map_some, List.length_map]
  · intro i
    rw [← Values_map_some, List.getElem?_map]

/-- C12, the code at the failing inputs: `Scan` accepts the JSON array 0, 1, 1 and stores it as
it is, with the zero id and with the id 1 twice. It also stores the zero of the driver integer
0 and of the single JSON number 0, and it decodes the array 1, null into the ids 1 and 0,
because the first decoding attempt, into `[]uint64`, accepts a null and leaves a zero; only the
attempt into `[]*uint64`, which that success forestalls, cleans its result. -/
theorem Scan_stores_zero_and_duplicate_ids :
    Scan (some []) (DriverValue.bytes zeroAndDuplicateArray) =
      Except.ok [some 0, some 1, some 1] ∧
    some 0 ∈ ([some 0, some 1, some 1] : UserGroupIDs) ∧
    ¬ ([some 0, some 1, some 1] : UserGroupIDs).Nodup ∧
    Scan (some []) (DriverValue.int64 0) = Except.ok [some 0] ∧
    Scan (some []) (DriverValue.bytes (RawBytes.doc (JSON.number (natNumber 0)))) =
      Except.ok [some 0] ∧
    Scan (some []) (DriverValue.bytes
      (RawBytes.doc (JSON.array [JSON.number (natNumber 1), JSON.null]))) =
      Except.ok [some 1, some 0] := by
  refine ⟨rfl, by decide, by decide, rfl, rfl, rfl⟩

/-- C13, the code at the failing input: of two trailing slashes `normalizeRequestPath` removes
one only; the result still ends in a slash, is not the root path, and is not the route
`/v1/models`. -/
theorem normalizeRequestPath_keeps_second_slash :
    normalizeRequestPath "/v1/models//" = "/v1/models/" ∧
    HasSuffix (normalizeRequestPath "/v1/models//") "/" = true ∧
    normalizeRequestPath "/v1/models//" ≠ "/" ∧
    normalizeRequestPath "/v1/models//" ≠ "/v1/models" := by
  decide

theorem excludedByPolicy_mono (lookup : PolicyLookup) (provider model : String)
    (u b u2 b2 : UserGroupIDs)
    (hu : ∀ v : Nat, v ≠ 0 → some v ∈ u → some v ∈ u2)
    (hb : ∀ v : Nat, v ≠ 0 → some v ∈ b → some v ∈ b2)
    (h : excludedByPolicy lookup provider model u2 b2 = true) :
    excludedByPolicy lookup provider model u b = true := by
  rw [excludedByPolicy_iff] at h ⊢
  obtain ⟨hf, hex, hno⟩ := h
  refine ⟨hf, hex, ?_⟩
  rintro ⟨v, h0, hv, hm⟩
  apply hno
  refine ⟨v, h0, hv, ?_⟩
  rcases hm with hm | hm
  · exact Or.inl (hu v h0 hm)
  · exact Or.inr (hb v h0 hm)

/-- C15: when every non-zero id of `u` is in `u2` and every non-zero id of `b` is in `b2`,
`hasAnyAllowedUserGroup` stays true from `(u, b)` to `(u2, b2)` for every allowed set, and for
every policy store and list every model kept by `filterModelInfosByUserGroups` for `(u, b)` is
kept for `(u2, b2)`, in the same order. -/
theorem hasAnyAllowedUserGroup_monotone (u b u2 b2 : UserGroupIDs)
    (hu : ∀ v : Nat, v ≠ 0 → some v ∈ u → some v ∈ u2)
    (hb : ∀ v : Nat, v ≠ 0 → some v ∈ b → some v ∈ b2) :
    (∀ allowed : UserGroupIDs, hasAnyAllowedUserGroup allowed u b = true →
      hasAnyAllowedUserGroup allowed u2 b2 = true) ∧
    (∀ (toLower : String → String) (lookup : PolicyLookup) (raw : List (Option ModelInfo)),
      (filterModelInfosByUserGroups toLower lookup raw u b).Sublist
        (filterModelInfosByUserGroups toLower lookup raw u2 b2) ∧
      ∀ e, e ∈ filterModelInfosByUserGroups toLower lookup raw u b →
        e ∈ filterModelInfosByUserGroups toLower lookup raw u2 b2) := by
  constructor
  · intro allowed h
    rw [hasAnyAllowedUserGroup_or] at h ⊢
    rcases h with h | ⟨v, h0, hv, hm⟩
    · exact Or.inl h
    · right
      refine ⟨v, h0, hv, ?_⟩
      rcases hm with hm | hm
      · exact Or.inl (hu v h0 hm)
      · exact Or.inr (hb v h0 hm)
  · intro toLower lookup raw
    have hsub : (filterModelInfosByUserGroups toLower lookup raw u b).Sublist
        (filterModelInfosByUserGroups toLower lookup raw u2 b2) := by
      unfold filterModelInfosByUserGroups
      by_cases hlen : raw.length = 0
      · simp only [hlen, if_true]
        exact List.Sublist.refl _
      · simp only [hlen, if_false]
        rw [filterModelInfosLoop_eq_filter, filterModelInfosLoop_eq_filter]
        apply List.monotone_filter_right
        intro e he
        cases e with
        | none => exact he
        | some info =>
          simp only [Bool.and_eq_true, decide_eq_true_eq, Bool.not_eq_true',
            Bool.and_eq_false_iff, decide_eq_false_iff_not, not_not] at he ⊢
          refine ⟨he.1, ?_⟩
          rcases he.2 with hp | hx
          · exact Or.inl hp
          · right
            cases hx2 : excludedByPolicy lookup (toLower (TrimSpace info.OwnedBy))
                (TrimSpace info.ID) u2 b2 with
            | false => rfl
            | true =>
              have := excludedByPolicy_mono lookup _ _ u b u2 b2 hu hb hx2
              rw [hx] at this
              exact absurd this Bool.false_ne_true
    exact ⟨hsub, fun e he => hsub.subset he⟩

/-- C15, witness: a caller in group 1 who also joins group 2 keeps a model restricted to
group 1. -/
theorem hasAnyAllowedUserGroup_monotone_witness :
    hasAnyAllowedUserGroup [some 1] [some 1] [] = true ∧
      hasAnyAllowedUserGroup [some 1] [some 1, some 2] [] = true :=
  ⟨by decide,
    (hasAnyAllowedUserGroup_monotone [some 1] [] [some 1, some 2] []
      (fun v _ hv => by
        have e : v = 1 := by simpa using hv
        subst e
        decide)
      (fun _ _ hv => hv)).1 [some 1] (by decide)⟩

theorem depthOfElems_ge (elems : List JSON) (e : JSON) (he : e ∈ elems) :
    e.depth ≤ depthOfElems elems := by
  induction elems with
  | nil => cases he
  | cons a rest ih =>
    rw [depthOfElems]
    rcases List.mem_cons.1 he with h | h
    · rw [h]
      exact le_max_left _ _
    · exact le_trans (ih h) (le_max_right _ _)

theorem depthOfElems_numbers (values : List Nat) :
    depthOfElems (values.map (fun v => JSON.number (natNumber v))) = 0 := by
  induction values with
  | nil => rfl
  | cons v rest ih => simp [depthOfElems, JSON.depth, ih]

theorem jsonDocument_doc (j : JSON) (h : j.depth ≤ maxNestingDepth) :
    jsonDocument (RawBytes.doc j) = some j := by
  simp [jsonDocument, h]

theorem jsonDocument_doc_deep (j : JSON) (h : ¬ j.depth ≤ maxNestingDepth) :
    jsonDocument (RawBytes.doc j) = none := by
  simp [jsonDocument, h]

theorem valueLoop_eq (l : UserGroupIDs) (values : List Nat) :
    valueLoop l values = values ++ l.filterMap id := by
  induction l generalizing values with
  | nil => simp [valueLoop]
  | cons h r ih =>
    cases h with
    | none => simpa [valueLoop] using ih values
    | some v =>
      simp only [valueLoop, List.filterMap_cons, id]
      rw [ih]
      simp

theorem valueLoop_Clean (ids : UserGroupIDs) : valueLoop (Clean ids) [] = Values ids := by
  rw [valueLoop_eq, ← Values_map_some, List.filterMap_map]
  simp

theorem decodeUint64_natNumber (v : Nat) (h : v ≤ maxUint64) :
    decodeUint64 (natNumber v) = some v := by
  simp [decodeUint64, natNumber, h]

theorem decodeUint64Elems_numbers (values : List Nat) (h : ∀ v ∈ values, v ≤ maxUint64) :
    decodeUint64Elems (values.map (fun v => JSON.number (natNumber v))) = some values := by
  induction values with
  | nil => rfl
  | cons v r ih =>
    have hv := decodeUint64_natNumber v (h v (List.mem_cons_self _ _))
    have hr := ih (fun w hw => h w (List.mem_cons_of_mem _ hw))
    simp only [List.map_cons, decodeUint64Elems, hv, hr]

/-- C16: `Value ids` succeeds and yields the JSON array of the distinct non-zero ids of `ids` in
first-occurrence order, the empty array and never null when there is none; and for ids within
the range of `uint64`, `Scan` applied to that output succeeds and stores exactly `Clean ids`. -/
theorem Scan_after_Value_is_Clean (ids recv : UserGroupIDs)
    (hrange : ∀ v : Nat, some v ∈ ids → v ≤ maxUint64) :
    Value ids = Except.ok (RawBytes.doc
      (JSON.array ((Values ids).map (fun v => JSON.number (natNumber v))))) ∧
    ((¬ ∃ v : Nat, v ≠ 0 ∧ some v ∈ ids) →
      Value ids = Except.ok (RawBytes.doc (JSON.array []))) ∧
    Value ids ≠ Except.ok (RawBytes.doc JSON.null) ∧
    (∀ data, Value ids = Except.ok data →
      Scan (some recv) (DriverValue.bytes data) = Except.ok (Clean ids)) := by
  have hval : Value ids = Except.ok (RawBytes.doc
      (JSON.array ((Values ids).map (fun v => JSON.number (natNumber v))))) := by
    simp only [Value, valueLoop_Clean, marshalUint64Slice]
  refine ⟨hval, ?_, ?_, ?_⟩
  · intro hnone
    have hnil : Values ids = [] := by
      apply List.eq_nil_iff_forall_not_mem.2
      intro v hv
      exact hnone ⟨v, (mem_Values ids v).1 hv⟩
    rw [hval, hnil]
    rfl
  · rw [hval]
    intro h
    cases h
  · intro data hdata
    rw [hval] at hdata
    cases hdata
    have hdec := decodeUint64Elems_numbers (Values ids)
      (fun v hv => hrange v ((mem_Values ids v).1 hv).2)
    have hdoc := jsonDocument_doc
      (JSON.array ((Values ids).map (fun v => JSON.number (natNumber v))))
      (by rw [JSON.depth, depthOfElems_numbers]; decide)
    simp only [Scan, parseUserGroupIDsFromBytes, RawBytes.isEmpty, Bool.false_eq_true, if_false,
      unmarshalUint64Slice, hdoc, hdec, Values_map_some]

/-- C16, witness: the ids 3, nil, 0, 3 are written as the array with the single number 3, and
read back as the single id 3. -/
theorem Scan_after_Value_is_Clean_witness :
    Value [some 3, none, some 0, some 3] =
      Except.ok (RawBytes.doc (JSON.array [JSON.number (natNumber 3)])) ∧
    Scan (some []) (DriverValue.bytes (RawBytes.doc (JSON.array [JSON.number (natNumber 3)]))) =
      Except.ok [some 3] :=
  have h := Scan_after_Value_is_Clean [some 3, none, some 0, some 3] []
    (fun v hv => by
      have e : v = 3 ∨ v = 0 := by
        simp only [List.mem_cons, Option.some.injEq, List.not_mem_nil, or_false] at hv
        rcases hv with h | h | h | h
        · exact Or.inl h
        · cases h
        · exact Or.inr h
        · exact Or.inl h
      rcases e with e | e <;> subst e <;> decide)
  ⟨h.1.trans rfl, (h.2.2.2 _ rfl).trans rfl⟩

theorem valueMember_cons (key : String) (j : JSON) (rest : List (String × JSON)) :
    valueMember ((key, j) :: rest) =
      match valueMember rest with
      | some j2 => some j2
      | none => if isValueKey key = true then some j else none := by
  unfold valueMember
  by_cases hk : isValueKey key = true
  · simp only [List.filter_cons, hk, if_true]
    cases hf : rest.filter (fun m => isValueKey m.1) with
    | nil => simp
    | cons a l =>
      rw [List.getLast?_cons_cons]
      cases hl : (a :: l).getLast? with
      | none => exact absurd (List.getLast?_eq_none_iff.1 hl) (by simp)
      | some x => rfl
  · simp only [List.filter_cons, hk, Bool.false_eq_true, if_false]
    cases hl : (rest.filter (fun m => isValueKey m.1)).getLast? with
    | none => simp
    | some a => simp

theorem parseValueMembers_eq (members : List (String × JSON)) (acc : Option Bool) :
    parseValueMembers members acc =
      match valueMember members with
      | some j => some (parseDBConfigBoolDoc j)
      | none => acc := by
  induction members generalizing acc with
  | nil => simp [parseValueMembers, valueMember]
  | cons m rest ih =>
    obtain ⟨key, j⟩ := m
    rw [valueMember_cons]
    by_cases hk : isValueKey key = true
    · simp only [parseValueMembers, hk, if_true]
      rw [ih]
      cases valueMember rest <;> rfl
    · simp only [parseValueMembers, hk, Bool.false_eq_true, if_false]
      rw [ih]
      cases valueMember rest <;> rfl

theorem valueMember_mem (members : List (String × JSON)) (j : JSON)
    (h : valueMember members = some j) : ∃ key, (key, j) ∈ members := by
  unfold valueMember at h
  rw [Option.map_eq_some'] at h
  obtain ⟨m, hm, hj⟩ := h
  have hmem := List.mem_of_mem_getLast? hm
  rw [List.mem_filter] at hmem
  exact ⟨m.1, by rw [← hj]; exact hmem.1⟩

theorem parseDBConfigBoolDoc_object (members : List (String × JSON)) :
    parseDBConfigBoolDoc (JSON.object members) =
      match valueMember members with
      | some j => parseDBConfigBoolDoc j
      | none => false := by
  rw [parseDBConfigBoolDoc, parseValueMembers_eq]
  cases valueMember members <;> rfl

theorem depthOfMembers_ge (members : List (String × JSON)) (m : String × JSON)
    (hm : m ∈ members) : m.2.depth ≤ depthOfMembers members := by
  induction members with
  | nil => cases hm
  | cons a rest ih =>
    obtain ⟨k0, j0⟩ := a
    rw [depthOfMembers]
    rcases List.mem_cons.1 hm with h | h
    · rw [h]
      exact le_max_left _ _
    · exact le_trans (ih h) (le_max_right _ _)

theorem valueMember_depth (members : List (String × JSON)) (j : JSON)
    (h : valueMember members = some j) : j.depth < (JSON.object members).depth := by
  obtain ⟨key, hmem⟩ := valueMember_mem members j h
  have h1 := depthOfMembers_ge members (key, j) hmem
  rw [JSON.depth]
  exact Nat.lt_succ_of_le h1

theorem parseDBConfigBool_doc (j : JSON) (h : j.depth ≤ maxNestingDepth) :
    parseDBConfigBool (RawBytes.doc j) = parseDBConfigBoolDoc j := by
  simp [parseDBConfigBool, bytesTrimSpace, RawBytes.isEmpty, jsonDocument, h]

theorem parseDBConfigBool_doc_deep (j : JSON) (h : ¬ j.depth ≤ maxNestingDepth) :
    parseDBConfigBool (RawBytes.doc j) = false := by
  simp [parseDBConfigBool, bytesTrimSpace, RawBytes.isEmpty, jsonDocument, h]

theorem parseDBConfigBool_padded (j : JSON) :
    parseDBConfigBool (RawBytes.padded j) = parseDBConfigBool (RawBytes.doc j) := by
  simp [parseDBConfigBool, bytesTrimSpace, RawBytes.isEmpty]

/-- The model of `parseDBConfigBool` follows the source step by step: the trimmed payload is
tried as a bool, as a string, as a float64 and as the wrapper, in this order, each attempt
starting with the syntax check of the codec, and the function calls itself on the raw message
of the wrapper when that is not empty. -/
theorem parseDBConfigBool_attempts (raw : RawBytes) :
    parseDBConfigBool raw =
      if (bytesTrimSpace raw).isEmpty = true then false
      else
        match unmarshalBool (bytesTrimSpace raw) with
        | some b => b
        | none =>
          match unmarshalString (bytesTrimSpace raw) with
          | some s =>
            if TrimSpace s = "" then false
            else if equalFoldTrue (TrimSpace s) = true ∨ TrimSpace s = "1" then true
            else false
          | none =>
            match unmarshalFloat64NonZero (bytesTrimSpace raw) with
            | some nonZero => nonZero
            | none =>
              match unmarshalWrapper (bytesTrimSpace raw) with
              | some value => if value.isEmpty = false then parseDBConfigBool value else false
              | none => false := by
  have hdoc : ∀ j : JSON, parseDBConfigBool (RawBytes.doc j) =
      match unmarshalBool (RawBytes.doc j) with
      | some b => b
      | none =>
        match unmarshalString (RawBytes.doc j) with
        | some s =>
          if TrimSpace s = "" then false
          else if equalFoldTrue (TrimSpace s) = true ∨ TrimSpace s = "1" then true
          else false
        | none =>
          match unmarshalFloat64NonZero (RawBytes.doc j) with
          | some nonZero => nonZero
          | none =>
            match unmarshalWrapper (RawBytes.doc j) with
            | some value => if value.isEmpty = false then parseDBConfigBool value else false
            | none => false := by
    intro j
    by_cases hd : j.depth ≤ maxNestingDepth
    · rw [parseDBConfigBool_doc j hd]
      cases j with
      | null => simp [parseDBConfigBoolDoc, unmarshalBool, jsonDocument, hd]
      | bool b => simp [parseDBConfigBoolDoc, unmarshalBool, jsonDocument, hd]
      | string s =>
        simp [parseDBConfigBoolDoc, unmarshalBool, unmarshalString, jsonDocument, hd]
      | number x =>
        cases hx : decodeFloat64NonZero x <;>
          simp [parseDBConfigBoolDoc, unmarshalBool, unmarshalString, unmarshalFloat64NonZero,
            unmarshalWrapper, jsonDocument, hd, hx]
      | array elems =>
        simp [parseDBConfigBoolDoc, unmarshalBool, unmarshalString, unmarshalFloat64NonZero,
          unmarshalWrapper, jsonDocument, hd]
      | object members =>
        rw [parseDBConfigBoolDoc_object]
        cases hv : valueMember members with
        | none =>
          simp [unmarshalBool, unmarshalString, unmarshalFloat64NonZero, unmarshalWrapper,
            jsonDocument, hd, hv, RawBytes.isEmpty]
        | some j2 =>
          have hd2 : j2.depth ≤ maxNestingDepth :=
            le_trans (Nat.le_of_lt (valueMember_depth members j2 hv)) hd
          simp [unmarshalBool, unmarshalString, unmarshalFloat64NonZero, unmarshalWrapper,
            jsonDocument, hd, hv, RawBytes.isEmpty, parseDBConfigBool_doc j2 hd2]
    · rw [parseDBConfigBool_doc_deep j hd]
      simp [unmarshalBool, unmarshalString, unmarshalFloat64NonZero, unmarshalWrapper,
        jsonDocument, hd]
  cases raw with
  | empty => simp [parseDBConfigBool, bytesTrimSpace, RawBytes.isEmpty]
  | blank => simp [parseDBConfigBool, bytesTrimSpace, RawBytes.isEmpty]
  | doc j =>
    rw [hdoc j]
    simp [bytesTrimSpace, RawBytes.isEmpty]
  | padded j =>
    rw [parseDBConfigBool_padded, hdoc j]
    simp [bytesTrimSpace, RawBytes.isEmpty]
  | invalid =>
    simp [parseDBConfigBool, bytesTrimSpace, RawBytes.isEmpty, jsonDocument, unmarshalBool,
      unmarshalString, unmarshalFloat64NonZero, unmarshalWrapper]

end CLIProxy
